import Mathlib

/-!
# kindle-send: the epub generation pipeline

A shallow embedding of `epubgen/epub.go` and `handler/queue.go`.

Go values of type `error` are `Option String` (`none` is `nil`).  Calls that
leave the repository (the readability extractor, `http.Get`, the file system,
the go-epub container, the slug library, the hash helpers) are fields of an
environment `Env`; a response may depend on how often the call was made
before, so that a retry can see a different outcome than the first attempt.
A call that panics ends the process: a function that can reach one returns a
`Run`, which is either the returned value or `panicked`.
-/

namespace KindleSend

/-- A Go `error`: `none` is `nil`. -/
abbrev Error := Option String

/-- The Go test `strings.Contains(s, sub)`. -/
def stringsContains (s sub : String) : Bool :=
  decide (sub.data <:+: s.data)

/-! ## HTML documents (goquery) -/

/-- An element of a parsed document: its tag and its attributes in the order
of the slice `html.Node.Attr`.  The attributes of an element have distinct
names. -/
structure Element where
  tag : String
  attrs : List (String × String)
  distinct : (attrs.map Prod.fst).Nodup

instance : DecidableEq Element := fun a b =>
  decidable_of_iff (a.tag = b.tag ∧ a.attrs = b.attrs) (by cases a; cases b; simp)

/-- The goquery call `sel.Attr(name)`: the value and whether it exists. -/
def Element.Attr (e : Element) (name : String) : Option String :=
  (e.attrs.find? (fun kv => kv.1 == name)).map Prod.snd

/-- The goquery helper `removeAttr` on the attribute slice: the first attribute
called `name` is overwritten with the last attribute of the slice, and the
slice is cut by one. -/
def removeAttrList (name : String) : List (String × String) → List (String × String)
  | [] => []
  | kv :: rest =>
    if kv.1 == name then
      match rest.getLast? with
      | none => []
      | some last => last :: rest.dropLast
    else kv :: removeAttrList name rest

/-- The goquery call `sel.RemoveAttr(name)`. -/
def Element.RemoveAttr (e : Element) (name : String) : Element :=
  { tag := e.tag
    attrs := removeAttrList name e.attrs
    distinct := by
      have key : ∀ l : List (String × String),
          (removeAttrList name l).Perm (l.eraseP (fun kv => kv.1 == name)) := by
        intro l
        induction l with
        | nil => exact List.Perm.refl _
        | cons kv rest ih =>
          by_cases h : (kv.1 == name) = true
          · simp only [removeAttrList, h, if_true, List.eraseP_cons_of_pos]
            cases hl : rest.getLast? with
            | none => simp [List.getLast?_eq_none_iff.1 hl]
            | some last =>
              have hp : (last :: rest.dropLast).Perm (rest.dropLast ++ [last]) := by
                rw [← List.singleton_append]
                exact List.perm_append_comm
              rw [List.dropLast_append_getLast? last hl] at hp
              exact hp
          · simp only [removeAttrList, h, if_false, Bool.false_eq_true]
            simp only [List.eraseP_cons, h, cond_false]
            exact ih.cons kv
      exact ((key e.attrs).map Prod.fst).nodup_iff.2
        (e.distinct.sublist ((List.eraseP_sublist _).map Prod.fst)) }

/-- The attribute slice after goquery's `SetAttr`: the value of the attribute
called `name` is replaced, or the attribute is appended. -/
def setAttrList (name val : String) : List (String × String) → List (String × String)
  | [] => [(name, val)]
  | kv :: rest =>
    if kv.1 == name then (name, val) :: rest else kv :: setAttrList name val rest

/-- The goquery call `sel.SetAttr(name, val)`. -/
def Element.SetAttr (e : Element) (name val : String) : Element :=
  { tag := e.tag
    attrs := setAttrList name val e.attrs
    distinct := by
      have key : ∀ l : List (String × String),
          (setAttrList name val l).map Prod.fst =
            if name ∈ l.map Prod.fst then l.map Prod.fst else l.map Prod.fst ++ [name] := by
        intro l
        induction l with
        | nil => simp [setAttrList]
        | cons kv rest ih =>
          by_cases h : kv.1 = name
          · simp [setAttrList, h]
          · have h2 : ¬ name = kv.1 := fun hn => h hn.symm
            simp only [setAttrList, beq_iff_eq, h, if_false, List.map_cons, ih, List.mem_cons,
              h2, false_or]
            split_ifs <;> simp
      rw [key]
      split_ifs with hmem
      · exact e.distinct
      · exact List.nodup_append.2 ⟨e.distinct, List.nodup_singleton _, by simpa using hmem⟩ }

/-- A parsed document (a non-nil `*html.Node`), as its elements in document
order. -/
abbrev Node := List Element

/-! ## Articles (go-readability) -/

/-- The fields of `readability.Article` the pipeline reads or writes; the
pointer `Node` is `none` when it is nil. -/
structure Article where
  Title : String
  Content : String
  Node : Option Node
deriving DecidableEq

/-- The zero value `readability.Article{}`: empty strings and a nil `Node`. -/
def Article.empty : Article := { Title := "", Content := "", Node := none }

/-- How a call ends: it returns a value, or a task panics and the process
ends. -/
inductive Run (α : Type) where
  | returned (a : α)
  | panicked
deriving DecidableEq

instance : Inhabited Article := ⟨Article.empty⟩

/-- The result of `http.Get`: the error, and the status code of the response. -/
structure HttpResult where
  err : Error
  StatusCode : Nat
deriving DecidableEq

/-! ## The container (go-epub) -/

/-- The state of an `epub.Epub`: what it has accepted so far. -/
structure Epub where
  title : String
  sections : List (String × String)
  images : List (String × String)
  cover : Option String
deriving DecidableEq

/-- The call `epub.NewEpub(title)`. -/
def NewEpub (title : String) : Epub :=
  { title := title, sections := [], images := [], cover := none }

/-! ## The environment -/

/-- Everything the pipeline calls outside the repository's three files. -/
structure Env where
  /-- The call `readability.FromURL(url, 30s)` at the given retry number. -/
  FromURL : String → Nat → Article × Error
  /-- The helper `util.GetHash`. -/
  GetHash : String → String
  /-- The helper `util.GenHash`. -/
  GenHash : String → String
  /-- The call `http.Get(url)`, given how many GETs of `url` came before. -/
  httpGet : String → Nat → HttpResult
  /-- The call `filepath.Join(tmpFolder, filename)`. -/
  filepathJoin : String → String → String
  /-- The call `path.Join(storeDir, filename)`. -/
  pathJoin : String → String → String
  /-- The error of `os.Create(path)`. -/
  osCreate : String → Error
  /-- The error of `io.Copy(file, response.Body)` for the response of `url`. -/
  ioCopy : String → Error
  /-- The call `Epub.AddImage(source, name)`: reference and error. -/
  AddImage : Epub → String → String → String × Error
  /-- The error of `Epub.AddSection(body, title, "", "")`. -/
  AddSection : Epub → String → String → Error
  /-- The error of `Epub.Write(path)`. -/
  Write : Epub → String → Error
  /-- The serialisation `doc.Html()`. -/
  Html : Node → String × Error
  /-- The call `slug.Make`. -/
  slugMake : String → String
  /-- The setting `config.GetInstance().StorePath`. -/
  StorePath : String
  /-- The call `os.Getwd()`. -/
  Getwd : String × Error

/-! ## Content Extractor -/

/-- The retry loop of `fetchReadable`, from retry number `retry` with
`remaining` iterations left before `retry <= 3` fails.  The state is the
current `article, err` and the number of extractor calls made so far. -/
def fetchReadableLoop (env : Env) (url : String) :
    Nat → Nat → Article × Error → Nat → Article × Error × Nat
  | 0, _, cur, calls => (cur.1, cur.2, calls)
  | remaining + 1, retry, _, calls =>
    let r := env.FromURL url retry
    if r.2 = none ∧ stringsContains r.1.Title "502" = false then
      (r.1, r.2, calls + 1)
    else
      fetchReadableLoop env url remaining (retry + 1) r (calls + 1)

/-- The function `fetchReadable`, with the number of extractor calls it made. -/
def fetchReadableCounted (env : Env) (url : String) : (Article × Error) × Nat :=
  let r := fetchReadableLoop env url 3 1 (Article.empty, none) 0
  if r.2.1 ≠ none then ((Article.empty, r.2.1), r.2.2) else ((r.1, none), r.2.2)

/-- The function `fetchReadable`. -/
def fetchReadable (env : Env) (url : String) : Article × Error :=
  (fetchReadableCounted env url).1

/-- An extraction attempt succeeds when the extractor returns no error and a
title without the marker `502`. -/
def attemptOk (env : Env) (url : String) (retry : Nat) : Prop :=
  (env.FromURL url retry).2 = none ∧
    stringsContains (env.FromURL url retry).1.Title "502" = false

instance (env : Env) (url : String) (retry : Nat) : Decidable (attemptOk env url retry) := by
  unfold attemptOk; infer_instance

/-! ## Dedup Registry and Asset Fetcher -/

/-- The registry `epubmaker.downloads`, a `sync.Map` from image locator to
container reference: the newest entry of a key comes first. -/
abbrev Downloads := List (String × String)

/-- The call `downloads.Load(key)`. -/
def Load (m : Downloads) (key : String) : Option String :=
  (m.find? (fun kv => kv.1 == key)).map Prod.snd

/-- The call `downloads.Store(key, value)`. -/
def Store (m : Downloads) (key value : String) : Downloads :=
  (key, value) :: m

/-- The type `epubmaker`. -/
structure epubmaker where
  Epub : Epub
  downloads : Downloads
deriving DecidableEq

/-- The function `NewEpubmaker`. -/
def NewEpubmaker (title : String) : epubmaker :=
  { Epub := NewEpub title, downloads := [] }

/-- What the run has done to the outside: the URLs given to `http.Get`, in
order; the files present in the staging area; the paths handed to a
successful `Epub.Write`. -/
structure World where
  gets : List String
  files : List String
  written : List String
deriving DecidableEq

/-- The constant `maxAttempts` of `downloadImage`. -/
def maxAttempts : Nat := 3

/-- How the `for` loop of `downloadImage` ends: by `return "", err`, or by
`break` with a response of status 200. -/
inductive GetOutcome where
  | gaveUp (err : Error)
  | response
deriving DecidableEq

/-- The `for` loop of `downloadImage`, entered with `attempts` attempts made.
The first argument bounds the number of iterations; the loop itself stops once
`attempts < maxAttempts` fails. -/
def downloadImageLoop (env : Env) (url : String) :
    Nat → Nat → World → GetOutcome × World
  | 0, _, w => (GetOutcome.gaveUp none, w)
  | fuel + 1, attempts, w =>
    let attempts := attempts + 1
    let r := env.httpGet url (w.gets.count url)
    let w := { w with gets := w.gets ++ [url] }
    if r.err ≠ none ∨ r.StatusCode ≠ 200 then
      if attempts < maxAttempts then downloadImageLoop env url fuel attempts w
      else (GetOutcome.gaveUp r.err, w)
    else (GetOutcome.response, w)

/-- The function `downloadImage`. -/
def downloadImage (env : Env) (w : World) (url filename tmpFolder : String) :
    (String × Error) × World :=
  let filePath := env.filepathJoin tmpFolder filename
  if filePath ∈ w.files then ((filePath, none), w)
  else
    match downloadImageLoop env url maxAttempts 0 w with
    | (GetOutcome.gaveUp err, w) => (("", err), w)
    | (GetOutcome.response, w) =>
      match env.osCreate filePath with
      | some e => (("", some e), w)
      | none =>
        match env.ioCopy url with
        | some e => (("", some e), w)
        | none => ((filePath, none), { w with files := filePath :: w.files })

/-- The container after a successful `AddImage(source, name)`. -/
def Epub.withImage (ep : Epub) (source name : String) : Epub :=
  { ep with images := ep.images ++ [(source, name)] }

/-- The retry loop of `downloadImages` with `remaining` iterations left.  The
state is the current `imgRef, err`, the container and the world. -/
def downloadImagesLoop (env : Env) (imgSrc tmpFolder : String) :
    Nat → String × Error → Epub → World → (String × Error) × Epub × World
  | 0, cur, ep, w => (cur, ep, w)
  | remaining + 1, cur, ep, w =>
    let imageFileName := env.GetHash imgSrc
    let d := downloadImage env w imgSrc imageFileName tmpFolder
    if d.1.2 ≠ none then
      downloadImagesLoop env imgSrc tmpFolder remaining (cur.1, d.1.2) ep d.2
    else
      let a := env.AddImage ep d.1.1 imageFileName
      if a.2 = none then (a, ep.withImage d.1.1 imageFileName, d.2)
      else downloadImagesLoop env imgSrc tmpFolder remaining a ep d.2

/-- The method `epubmaker.downloadImages` on one `img` element. -/
def downloadImages (env : Env) (e : epubmaker) (w : World) (img : Element)
    (tmpFolder : String) : epubmaker × World :=
  match img.Attr "src" with
  | none => (e, w)
  | some imgSrc =>
    if (Load e.downloads imgSrc).isSome then (e, w)
    else
      let r := downloadImagesLoop env imgSrc tmpFolder 3 ("", none) e.Epub w
      if r.1.2 ≠ none then ({ e with Epub := r.2.1 }, r.2.2)
      else ({ Epub := r.2.1, downloads := Store e.downloads imgSrc r.1.1 }, r.2.2)

/-! ## Image Rewriter -/

/-- The method `epubmaker.changeRefs` on one `img` element. -/
def changeRefs (e : epubmaker) (img : Element) : Element :=
  let img := img.RemoveAttr "loading"
  let img := img.RemoveAttr "srcset"
  match img.Attr "src" with
  | none => img
  | some imgSrc =>
    match Load e.downloads imgSrc with
    | some src => img.SetAttr "src" src
    | none => img

/-- Whether the selector `"img"` matches the element. -/
def isImg (el : Element) : Bool := el.tag == "img"

/-- The first phase of `embedImages`: `doc.Find("img").Each(downloadImages)`. -/
def downloadAll (env : Env) (tmpFolder : String) (doc : Node) (e : epubmaker)
    (w : World) : epubmaker × World :=
  (doc.filter isImg).foldl
    (fun st img => downloadImages env st.1 st.2 img tmpFolder) (e, w)

/-- The second phase of `embedImages`: `doc.Find("img").Each(e.changeRefs)`. -/
def changeAll (e : epubmaker) (doc : Node) : Node :=
  doc.map (fun el => if isImg el then changeRefs e el else el)

/-- The method `epubmaker.embedImages` on one article.  On a nil `article.Node`
the call `doc.Find("img")` dereferences the nil root of the document: the task
panics before any download. -/
def embedImages (env : Env) (e : epubmaker) (w : World) (article : Article)
    (tmpFolder : String) : Run (epubmaker × World × Article) :=
  match article.Node with
  | none => Run.panicked
  | some node =>
    let st := downloadAll env tmpFolder node e w
    let doc := changeAll st.1 node
    let h := env.Html doc
    if h.2 ≠ none then Run.returned (st.1, st.2, { article with Node := some doc })
    else Run.returned (st.1, st.2, { article with Node := some doc, Content := h.1 })

/-! ## Assembly -/

/-- The function `prepare`. -/
def prepare (article : Article) : String :=
  "<h1>" ++ article.Title ++ "</h1>" ++ article.Content

/-- The container after a successful `AddSection(body, title, "", "")`. -/
def Epub.withSection (ep : Epub) (body title : String) : Epub :=
  { ep with sections := ep.sections ++ [(body, title)] }

/-- One iteration of the loop of `addContent`; the state is the container and
the counter `added`. -/
def addContentStep (env : Env) (st : Epub × Nat) (article : Article) : Epub × Nat :=
  if env.AddSection st.1 (prepare article) article.Title ≠ none then st
  else (st.1.withSection (prepare article) article.Title, st.2 + 1)

/-- The method `epubmaker.addContent`. -/
def addContent (env : Env) (e : epubmaker) (articles : List Article) :
    Error × epubmaker :=
  let st := articles.foldl (addContentStep env) (e.Epub, 0)
  if st.2 = 0 then
    (some "No article was added, epub creation failed", { e with Epub := st.1 })
  else (none, { e with Epub := st.1 })

/-! ## Pipeline Orchestrator -/

/-- The type `ReadableResult`. -/
structure ReadableResult where
  Index : Nat
  Article : Article
deriving DecidableEq

/-- The function `fetchURL`: the message the task sends on the channel. -/
def fetchURL (env : Env) (url : String) (index : Nat) : ReadableResult :=
  { Article := (fetchReadable env url).1, Index := index }

/-- The messages of the tasks that `getReadableArticles` starts, by task. -/
def sentResults (env : Env) (pageUrls : List String) : List ReadableResult :=
  pageUrls.enum.map (fun iu => fetchURL env iu.2 iu.1)

/-- The function `getReadableArticles`.  The tasks run concurrently; `arrival`
lists the task numbers in the order in which their messages are received from
the channel. -/
def getReadableArticles (env : Env) (pageUrls : List String) (arrival : List Nat) :
    List Article :=
  let received := arrival.filterMap (fun k => (sentResults env pageUrls)[k]?)
  received.foldl (fun readableArticles article =>
      readableArticles.set article.Index article.Article)
    (List.replicate pageUrls.length Article.empty)

/-- The function `getStoreDir`. -/
def getStoreDir (env : Env) (err : Error) : String × Error :=
  if env.StorePath.length = 0 then
    if env.Getwd.2 ≠ none then ("./", env.Getwd.2) else env.Getwd
  else (env.StorePath, err)

/-- The image stage of `Make`: one `embedImages` task per article, then
`wg.Wait()`.  The tasks are run one after the other in article order, which is
one of the schedules of the concurrent program; a task that panics ends the
process, so the stage does not return. -/
def embedAll (env : Env) (tmpFolder : String) :
    List Article → epubmaker → World → Run (epubmaker × World × List Article)
  | [], e, w => Run.returned (e, w, [])
  | article :: rest, e, w =>
    match embedImages env e w article tmpFolder with
    | Run.panicked => Run.panicked
    | Run.returned r =>
      match embedAll env tmpFolder rest r.1 r.2.1 with
      | Run.panicked => Run.panicked
      | Run.returned rs => Run.returned (rs.1, rs.2.1, r.2.2 :: rs.2.2)

/-- The deferred `os.RemoveAll(tmpFolder)`. -/
def removeAll (tmpFolder : String) (w : World) : World :=
  { w with files := w.files.filter (fun p => !((tmpFolder ++ "/").isPrefixOf p)) }

/-- What a run of `Make` returns and leaves behind: the returned path and
error, the container if one was created, and the world. -/
structure MakeResult where
  path : String
  err : Error
  book : Option epubmaker
  world : World
deriving DecidableEq

/-- The function `Make`. -/
def Make (env : Env) (arrival : List Nat) (w : World) (pageUrls : List String)
    (title coverUrl : String) : Run MakeResult :=
  let tmpFolder := "tmp-" ++ env.GenHash ("-".intercalate pageUrls)
  match getReadableArticles env pageUrls arrival with
  | [] =>
    Run.returned
      { path := "", err := some "No readable url given, exiting without creating epub",
        book := none, world := removeAll tmpFolder w }
  | first :: others =>
    let title := if title.length = 0 then first.Title else title
    let book := NewEpubmaker title
    match embedAll env tmpFolder (first :: others) book w with
    | Run.panicked => Run.panicked
    | Run.returned r =>
      let c := addContent env r.1 r.2.2
      let book :=
        if coverUrl.length ≠ 0 then
          let a := env.AddImage c.2.Epub coverUrl "cover.png"
          let ep := if a.2 = none then c.2.Epub.withImage coverUrl "cover.png" else c.2.Epub
          { c.2 with Epub := { ep with cover := some a.1 } }
        else c.2
      if c.1 ≠ none then
        Run.returned
          { path := "", err := c.1, book := some book, world := removeAll tmpFolder r.2.1 }
      else
        let storeDir := (getStoreDir env c.1).1
        let titleSlug := env.slugMake title
        let filename :=
          if titleSlug.length = 0 then "kindle-send-doc-" ++ tmpFolder ++ ".epub"
          else titleSlug ++ ".epub"
        let filepath := env.pathJoin storeDir filename
        let err := env.Write book.Epub filepath
        if err ≠ none then
          Run.returned
            { path := "", err := err, book := some book, world := removeAll tmpFolder r.2.1 }
        else
          Run.returned
            { path := filepath, err := none, book := some book,
              world := removeAll tmpFolder
                { r.2.1 with written := r.2.1.written ++ [filepath] } }

/-! ## Request Queue -/

/-- Modelled from the spec: the request kinds of package `types`, whose
declaration is not among the sources (`LocalFile`, `SinglePage`, `PageList`). -/
inductive FileType where
  | TypeFile
  | TypeUrl
  | TypeUrlFile
deriving DecidableEq

/-- Modelled from the spec: the record `types.Request`, whose declaration is
not among the sources; the fields are those `types.NewRequest` is given
(`Typ` is the Go field `Type`). -/
structure Request where
  Path : String
  Typ : FileType
  Options : List (String × String)
deriving DecidableEq

/-- Modelled from the spec: the constructor `types.NewRequest`. -/
def NewRequest (path : String) (type : FileType) (opts : List (String × String)) :
    Request :=
  { Path := path, Typ := type, Options := opts }

/-- The body of the loop of `Queue` for one request; the state is the slice
`processedRequests` and the state `σ` in which the generator runs. -/
def queueStep {σ : Type}
    (Make : σ → List String → String → String → (String × Error) × σ)
    (ExtractLinks : σ → String → List String) (outputFileName coverUrl : String)
    (st : List Request × σ) (req : Request) : List Request × σ :=
  match req.Typ with
  | FileType.TypeFile => (st.1 ++ [req], st.2)
  | FileType.TypeUrl =>
    let r := Make st.2 [req.Path] outputFileName coverUrl
    if r.1.2 ≠ none then (st.1, r.2)
    else (st.1 ++ [NewRequest r.1.1 FileType.TypeFile []], r.2)
  | FileType.TypeUrlFile =>
    let links := ExtractLinks st.2 req.Path
    let r := Make st.2 links outputFileName coverUrl
    if r.1.2 ≠ none then (st.1, r.2)
    else (st.1 ++ [NewRequest r.1.1 FileType.TypeFile []], r.2)

/-- The function `Queue`, over the generator `epubgen.Make` and the helper
`util.ExtractLinks`, for calls of the generator that return; it returns
`processedRequests` and the final state. -/
def Queue {σ : Type}
    (Make : σ → List String → String → String → (String × Error) × σ)
    (ExtractLinks : σ → String → List String) (s : σ)
    (downloadRequests : List Request) (outputFileName coverUrl : String) :
    List Request × σ :=
  downloadRequests.foldl (queueStep Make ExtractLinks outputFileName coverUrl) ([], s)

/-! ## Concrete environments -/

/-- A stand-in for `slug.Make`: letters in lower case and digits are kept. -/
def plainSlug (s : String) : String :=
  String.mk ((s.data.filter Char.isAlphanum).map Char.toLower)

/-- A stand-in for `util.GetHash`: the letters and digits of the locator. -/
def plainHash (s : String) : String :=
  String.mk (s.data.filter Char.isAlphanum)

/-- A stand-in for `doc.Html()`: the opening tags of the elements. -/
def plainHtml (doc : Node) : String :=
  String.join (doc.map (fun el => "<" ++ el.tag ++ ">"))

/-- The joins `filepath.Join` and `path.Join` of two elements, for a clean
directory and a plain file name: an empty directory is left out. -/
def plainJoin (dir name : String) : String :=
  if dir.length = 0 then name else dir ++ "/" ++ name

/-- An element without attributes. -/
def bare (tag : String) : Element :=
  { tag := tag, attrs := [], distinct := List.nodup_nil }

/-- An `img` element with the given `src`. -/
def imgOf (src : String) : Element :=
  { tag := "img", attrs := [("src", src)], distinct := List.nodup_singleton _ }

/-- An `img` element with a `loading` attribute and the given `src`. -/
def lazyImgOf (src : String) : Element :=
  { tag := "img", attrs := [("loading", "lazy"), ("src", src)], distinct := by simp }

/-- A page with the given title, one paragraph and no images. -/
def page (title : String) : Article :=
  { Title := title, Content := "<p>", Node := some [bare "p"] }

/-- An environment in which every call outside the repository succeeds: the
extractor returns a page titled after its URL, every GET has status 200, the
container accepts everything, `GetHash` is the identity. -/
def okEnv : Env where
  FromURL := fun url _ => (page url, none)
  GetHash := fun s => s
  GenHash := fun _ => "0a1b2c"
  httpGet := fun _ _ => { err := none, StatusCode := 200 }
  filepathJoin := plainJoin
  pathJoin := plainJoin
  osCreate := fun _ => none
  ioCopy := fun _ => none
  AddImage := fun _ _ name => ("../images/" ++ name, none)
  AddSection := fun _ _ _ => none
  Write := fun _ _ => none
  Html := fun doc => (plainHtml doc, none)
  slugMake := plainSlug
  StorePath := ""
  Getwd := ("/home", none)

/-- As `okEnv`, but staged files are named by `plainHash`, and the container
refuses an image without source and an image under a name already in use. -/
def strictEnv : Env :=
  { okEnv with
    GetHash := plainHash
    AddImage := fun ep source name =>
      if source.length = 0 then ("", some "error retrieving file")
      else if name ∈ ep.images.map Prod.snd then ("", some "filename already used")
      else ("../images/" ++ name, none) }

/-- The world before a run: no GET made, empty staging area, nothing written. -/
def World.init : World := { gets := [], files := [], written := [] }

/-- As `okEnv`, but the extractor always answers with a gateway-error page and
no error. -/
def gatewayEnv : Env :=
  { okEnv with FromURL := fun _ _ => (page "502 Bad Gateway", none) }

/-- As `okEnv`, but every GET is answered with status 404 and no error. -/
def notFoundEnv : Env :=
  { okEnv with httpGet := fun _ _ => { err := none, StatusCode := 404 } }

/-- As `strictEnv`, but every GET is answered with status 404 and no error. -/
def strictNotFoundEnv : Env :=
  { strictEnv with httpGet := fun _ _ => { err := none, StatusCode := 404 } }

/-- As `okEnv`, but every GET fails with a network error. -/
def offlineEnv : Env :=
  { okEnv with httpGet := fun _ _ => { err := some "dial tcp: timeout", StatusCode := 0 } }

/-- As `okEnv`, but the extractor fails for every URL in `bad`. -/
def failingEnv (bad : List String) : Env :=
  { okEnv with FromURL := fun url _ =>
      if url ∈ bad then (Article.empty, some "fetch failed") else (page url, none) }

/-- As `okEnv`, but the extractor answers every URL with a page titled
`Alien`. -/
def alienEnv : Env :=
  { okEnv with FromURL := fun _ _ => (page "Alien", none) }

/-- A document with three `img` elements, the first and the last of the same
`src`. -/
def galleryNode : Node :=
  [imgOf "http://x.example/a.png", bare "p", imgOf "http://x.example/b.png",
    lazyImgOf "http://x.example/a.png"]

/-- An article with the document `galleryNode`. -/
def gallery : Article :=
  { Title := "Gallery", Content := "<img><p><img><img>", Node := some galleryNode }


/-! ## Content Extractor: retries -/

/-- The extractor is called at least once and at most three times. -/
theorem fetchReadable_calls_le (env : Env) (url : String) :
    1 ≤ (fetchReadableCounted env url).2 ∧ (fetchReadableCounted env url).2 ≤ 3 := by
  simp only [fetchReadableCounted, fetchReadableLoop]
  split_ifs <;> simp

/-- The number of extractor calls is the number of the first attempt that
succeeds, and 3 when none does. -/
theorem fetchReadable_calls_eq (env : Env) (url : String) :
    (fetchReadableCounted env url).2 =
      if attemptOk env url 1 then 1 else if attemptOk env url 2 then 2 else 3 := by
  simp only [fetchReadableCounted, fetchReadableLoop, attemptOk]
  split_ifs <;> simp_all

/-- What `fetchReadable` returns is decided by the last attempt made alone: an
error exactly when that attempt returned an error. -/
theorem fetchReadable_err_iff (env : Env) (url : String) :
    (fetchReadable env url).2 ≠ none ↔
      ¬ attemptOk env url 1 ∧ ¬ attemptOk env url 2 ∧ (env.FromURL url 3).2 ≠ none := by
  simp only [fetchReadable, fetchReadableCounted, fetchReadableLoop, attemptOk]
  split_ifs <;> simp_all

/-- C5, evaluated where it fails: the extractor answers each of the three
attempts with a page titled `502 Bad Gateway` and no error.  No attempt
succeeds, three calls are made, and `fetchReadable` returns that page with a
nil error. -/
theorem fetchReadable_gateway_page_without_error :
    (∀ retry, ¬ attemptOk gatewayEnv "http://a.example/post" retry) ∧
    fetchReadableCounted gatewayEnv "http://a.example/post" =
      ((page "502 Bad Gateway", none), 3) := by
  refine ⟨fun retry => ?_, by decide⟩
  simp only [attemptOk, gatewayEnv, okEnv, page]
  decide

/-! ## Attributes and the registry -/

/-- Among attributes of distinct names, the value found under a name is the
value of the attribute of that name in the list. -/
theorem lookup_eq_some_iff (l : List (String × String)) (h : (l.map Prod.fst).Nodup)
    (name v : String) :
    (l.find? (fun kv => kv.1 == name)).map Prod.snd = some v ↔ (name, v) ∈ l := by
  induction l with
  | nil => simp
  | cons kv rest ih =>
    rw [List.map_cons, List.nodup_cons] at h
    by_cases hk : kv.1 = name
    · have hnot : (name, v) ∉ rest := fun hm =>
        h.1 (hk ▸ List.mem_map_of_mem Prod.fst hm)
      simp only [List.find?_cons, hk, beq_self_eq_true, Option.map_some', Option.some.injEq,
        List.mem_cons, hnot, or_false]
      constructor
      · intro hv
        rw [← hv, ← hk]
      · intro he
        rw [← he]
    · have hne : (name, v) ≠ kv := fun he => hk (by rw [← he])
      have hb : (kv.1 == name) = false := by simpa using hk
      simp only [List.find?_cons, hb, List.mem_cons, hne, false_or]
      exact ih h.2

/-- The slice after `removeAttr` holds the attributes of the slice without its
first attribute called `name`. -/
theorem removeAttrList_perm (name : String) (l : List (String × String)) :
    (removeAttrList name l).Perm (l.eraseP (fun kv => kv.1 == name)) := by
  induction l with
  | nil => exact List.Perm.refl _
  | cons kv rest ih =>
    by_cases h : (kv.1 == name) = true
    · simp only [removeAttrList, h, if_true, List.eraseP_cons_of_pos]
      cases hl : rest.getLast? with
      | none => simp [List.getLast?_eq_none_iff.1 hl]
      | some last =>
        have hp : (last :: rest.dropLast).Perm (rest.dropLast ++ [last]) := by
          rw [← List.singleton_append]
          exact List.perm_append_comm
        rw [List.dropLast_append_getLast? last hl] at hp
        exact hp
    · simp only [removeAttrList, h, if_false, Bool.false_eq_true]
      simp only [List.eraseP_cons, h, cond_false]
      exact ih.cons kv

/-- Removing an attribute leaves the attributes of another name as they are. -/
theorem Attr_RemoveAttr_ne (e : Element) (name k : String) (h : name ≠ k) :
    (e.RemoveAttr k).Attr name = e.Attr name := by
  apply Option.ext
  intro v
  have hneg : ¬ ((fun kv : String × String => kv.1 == k) (name, v) = true) := by
    simpa using h
  show (e.RemoveAttr k).Attr name = some v ↔ e.Attr name = some v
  unfold Element.Attr
  rw [lookup_eq_some_iff _ (e.RemoveAttr k).distinct, lookup_eq_some_iff _ e.distinct]
  show (name, v) ∈ removeAttrList k e.attrs ↔ (name, v) ∈ e.attrs
  rw [(removeAttrList_perm k e.attrs).mem_iff]
  exact List.mem_eraseP_of_neg hneg

/-- The first entry called `name` after `setAttrList name val`. -/
theorem find_setAttrList (name val : String) (l : List (String × String)) :
    (setAttrList name val l).find? (fun kv => kv.1 == name) = some (name, val) := by
  induction l with
  | nil => simp [setAttrList]
  | cons kv rest ih =>
    by_cases hn : kv.1 = name
    · simp [setAttrList, hn]
    · simp [setAttrList, hn, List.find?_cons, ih]

/-- After `SetAttr(name, val)` the attribute `name` has the value `val`. -/
theorem Attr_SetAttr (e : Element) (name val : String) :
    (e.SetAttr name val).Attr name = some val := by
  simp only [Element.SetAttr, Element.Attr, find_setAttrList, Option.map_some']

/-- The selector still matches an element after `changeRefs`. -/
theorem isImg_changeRefs (e : epubmaker) (img : Element) :
    isImg (changeRefs e img) = isImg img := by
  unfold changeRefs
  simp only
  split
  · rfl
  · split <;> rfl

/-- The `src` of an element after `changeRefs`: the registry's value for the
old `src` if there is one, the old `src` otherwise. -/
theorem Attr_src_changeRefs (e : epubmaker) (img : Element) (s : String)
    (h : img.Attr "src" = some s) :
    (changeRefs e img).Attr "src" = some ((Load e.downloads s).getD s) := by
  have h1 : ((img.RemoveAttr "loading").RemoveAttr "srcset").Attr "src" = some s := by
    rw [Attr_RemoveAttr_ne _ _ _ (by decide), Attr_RemoveAttr_ne _ _ _ (by decide), h]
  unfold changeRefs
  simp only [h1]
  cases hl : Load e.downloads s with
  | none => simpa using h1
  | some r => simpa using Attr_SetAttr _ "src" r

/-- A lookup in the registry after a `Store`. -/
theorem Load_Store (m : Downloads) (k v key : String) :
    Load (Store m k v) key = if k = key then some v else Load m key := by
  by_cases h : k = key <;> simp [Load, Store, List.find?_cons, h]


/-! ## Asset Fetcher: what a download changes -/

/-- The loop of `downloadImage` only appends GETs of its URL to the log, at
most as many as it has iterations. -/
theorem downloadImageLoop_world (env : Env) (url : String) :
    ∀ (fuel attempts : Nat) (w : World), ∃ k, k ≤ fuel ∧
      (downloadImageLoop env url fuel attempts w).2 =
        { w with gets := w.gets ++ List.replicate k url }
  | 0, _, w => ⟨0, Nat.le_refl _, by simp [downloadImageLoop]⟩
  | fuel + 1, attempts, w => by
    simp only [downloadImageLoop]
    split_ifs
    · obtain ⟨k, hk, h⟩ := downloadImageLoop_world env url fuel (attempts + 1)
        { w with gets := w.gets ++ [url] }
      refine ⟨k + 1, by omega, ?_⟩
      rw [h]
      simp [List.replicate_succ]
    · exact ⟨1, by omega, rfl⟩
    · exact ⟨1, by omega, rfl⟩

/-- One call of `downloadImage` makes at most three GETs, all of its URL, and
stages at most the file of its path. -/
theorem downloadImage_world (env : Env) (w : World) (url filename tmpFolder : String) :
    ∃ k, k ≤ 3 ∧
      (downloadImage env w url filename tmpFolder).2.gets = w.gets ++ List.replicate k url ∧
      (downloadImage env w url filename tmpFolder).2.written = w.written ∧
      ∀ p, p ∈ (downloadImage env w url filename tmpFolder).2.files →
        p = env.filepathJoin tmpFolder filename ∨ p ∈ w.files := by
  unfold downloadImage
  simp only
  split_ifs
  · exact ⟨0, by omega, by simp, rfl, fun p hp => Or.inr hp⟩
  · obtain ⟨k, hk, h⟩ := downloadImageLoop_world env url maxAttempts 0 w
    have hk3 : k ≤ 3 := hk
    split
    · next err w1 heq =>
      have hw : w1 = { w with gets := w.gets ++ List.replicate k url } := by
        rw [← h, heq]
      subst hw
      exact ⟨k, hk3, rfl, rfl, fun p hp => Or.inr hp⟩
    · next w1 heq =>
      have hw : w1 = { w with gets := w.gets ++ List.replicate k url } := by
        rw [← h, heq]
      subst hw
      split
      · exact ⟨k, hk3, rfl, rfl, fun p hp => Or.inr hp⟩
      · split
        · exact ⟨k, hk3, rfl, rfl, fun p hp => Or.inr hp⟩
        · exact ⟨k, hk3, rfl, rfl, fun p hp => by simpa using hp⟩

/-- The retry loop of `downloadImages` makes at most three GETs per iteration,
all of its locator; it stages at most the file of the locator and adds at most
one image, under the hash of the locator, to the container. -/
theorem downloadImagesLoop_effect (env : Env) (imgSrc tmpFolder : String) :
    ∀ (remaining : Nat) (cur : String × Error) (ep : Epub) (w : World),
      ∃ k, k ≤ 3 * remaining ∧
        (downloadImagesLoop env imgSrc tmpFolder remaining cur ep w).2.2.gets =
          w.gets ++ List.replicate k imgSrc ∧
        (downloadImagesLoop env imgSrc tmpFolder remaining cur ep w).2.2.written =
          w.written ∧
        (∀ p, p ∈ (downloadImagesLoop env imgSrc tmpFolder remaining cur ep w).2.2.files →
          p = env.filepathJoin tmpFolder (env.GetHash imgSrc) ∨ p ∈ w.files) ∧
        ((downloadImagesLoop env imgSrc tmpFolder remaining cur ep w).2.1 = ep ∨
          ∃ source, (downloadImagesLoop env imgSrc tmpFolder remaining cur ep w).2.1 =
            ep.withImage source (env.GetHash imgSrc))
  | 0, cur, ep, w =>
    ⟨0, by omega, by simp [downloadImagesLoop], rfl, fun p hp => Or.inr hp, Or.inl rfl⟩
  | remaining + 1, cur, ep, w => by
    obtain ⟨k, hk, hg, hw, hf⟩ := downloadImage_world env w imgSrc (env.GetHash imgSrc) tmpFolder
    simp only [downloadImagesLoop]
    split_ifs with herr hadd
    · obtain ⟨k2, hk2, hg2, hw2, hf2, he2⟩ := downloadImagesLoop_effect env imgSrc tmpFolder
        remaining (cur.1, (downloadImage env w imgSrc (env.GetHash imgSrc) tmpFolder).1.2) ep
        (downloadImage env w imgSrc (env.GetHash imgSrc) tmpFolder).2
      refine ⟨k + k2, by omega, ?_, ?_, ?_, he2⟩
      · rw [hg2, hg, List.append_assoc, ← List.replicate_add]
      · rw [hw2, hw]
      · intro p hp
        rcases hf2 p hp with h | h
        · exact Or.inl h
        · exact hf p h
    · exact ⟨k, by omega, hg, hw, hf, Or.inr ⟨_, rfl⟩⟩
    · obtain ⟨k2, hk2, hg2, hw2, hf2, he2⟩ := downloadImagesLoop_effect env imgSrc tmpFolder
        remaining (env.AddImage ep
          (downloadImage env w imgSrc (env.GetHash imgSrc) tmpFolder).1.1 (env.GetHash imgSrc)) ep
        (downloadImage env w imgSrc (env.GetHash imgSrc) tmpFolder).2
      refine ⟨k + k2, by omega, ?_, ?_, ?_, he2⟩
      · rw [hg2, hg, List.append_assoc, ← List.replicate_add]
      · rw [hw2, hw]
      · intro p hp
        rcases hf2 p hp with h | h
        · exact Or.inl h
        · exact hf p h

/-- C7, amended: for an `img` element whose locator is absent from the
registry, one call of `downloadImages` makes at most nine GETs (three calls of
`downloadImage` of at most three attempts each), all of them of that locator,
whatever the outcome of each attempt. -/
theorem downloadImages_at_most_nine_gets (env : Env) (e : epubmaker) (w : World)
    (img : Element) (tmpFolder s : String) (hsrc : img.Attr "src" = some s)
    (habsent : Load e.downloads s = none) :
    ∃ k, k ≤ 9 ∧
      (downloadImages env e w img tmpFolder).2.gets = w.gets ++ List.replicate k s := by
  obtain ⟨k, hk, hg, _⟩ := downloadImagesLoop_effect env s tmpFolder 3 ("", none) e.Epub w
  refine ⟨k, by omega, ?_⟩
  unfold downloadImages
  simp only [hsrc, habsent, Option.isSome_none, Bool.false_eq_true, if_false]
  split_ifs <;> exact hg

/-- An instance for C7: an image that is fetched at the first attempt. -/
theorem downloadImages_at_most_nine_gets_witness :
    (imgOf "http://x.example/a.png").Attr "src" = some "http://x.example/a.png" ∧
    Load (NewEpubmaker "t").downloads "http://x.example/a.png" = none ∧
    ∃ k, k ≤ 9 ∧
      (downloadImages okEnv (NewEpubmaker "t") World.init (imgOf "http://x.example/a.png")
        "tmp-0a1b2c").2.gets = World.init.gets ++ List.replicate k "http://x.example/a.png" :=
  ⟨by decide, by decide,
    downloadImages_at_most_nine_gets okEnv (NewEpubmaker "t") World.init
      (imgOf "http://x.example/a.png") "tmp-0a1b2c" "http://x.example/a.png"
      (by decide) (by decide)⟩

/-- When no file is staged and each of the three attempts fails, by an error or
by a status other than 200, `downloadImage` returns the empty path together
with the error value of the third GET alone, which is nil if that attempt
failed by its status. -/
theorem downloadImage_all_attempts_fail (env : Env) (w : World)
    (url filename tmpFolder : String) (hfile : env.filepathJoin tmpFolder filename ∉ w.files)
    (hfail : ∀ k, (env.httpGet url k).err ≠ none ∨ (env.httpGet url k).StatusCode ≠ 200) :
    (downloadImage env w url filename tmpFolder).1 =
      ("", (env.httpGet url (w.gets.count url + 2)).err) ∧
    (downloadImage env w url filename tmpFolder).2 =
      { w with gets := w.gets ++ [url, url, url] } := by
  simp [downloadImage, downloadImageLoop, maxAttempts, hfile, hfail, List.count_append]

/-- When every GET fails with an error and no file is staged, the retry loop of
`downloadImages` ends with an error and leaves the container and the staging
area as they were. -/
theorem downloadImagesLoop_offline (env : Env) (imgSrc tmpFolder : String)
    (hoff : ∀ url k, (env.httpGet url k).err ≠ none) :
    ∀ (remaining : Nat) (cur : String × Error) (ep : Epub) (w : World),
      (cur.2 ≠ none ∨ 0 < remaining) → w.files = [] →
      (downloadImagesLoop env imgSrc tmpFolder remaining cur ep w).1.2 ≠ none ∧
      (downloadImagesLoop env imgSrc tmpFolder remaining cur ep w).2.1 = ep ∧
      (downloadImagesLoop env imgSrc tmpFolder remaining cur ep w).2.2.files = []
  | 0, cur, ep, w, hcur, hfiles => by
    rcases hcur with h | h
    · exact ⟨h, rfl, hfiles⟩
    · omega
  | remaining + 1, cur, ep, w, _, hfiles => by
    obtain ⟨h1, h2⟩ := downloadImage_all_attempts_fail env w imgSrc (env.GetHash imgSrc)
      tmpFolder (by simp [hfiles]) (fun k => Or.inl (hoff imgSrc k))
    have herr : (downloadImage env w imgSrc (env.GetHash imgSrc) tmpFolder).1.2 ≠ none := by
      rw [h1]
      exact hoff _ _
    have hf : (downloadImage env w imgSrc (env.GetHash imgSrc) tmpFolder).2.files = [] := by
      rw [h2]
      exact hfiles
    simp only [downloadImagesLoop, herr, ne_eq, not_false_eq_true, if_true]
    exact downloadImagesLoop_offline env imgSrc tmpFolder hoff remaining _ ep _
      (Or.inl herr) hf

/-- When every GET fails with an error and no file is staged, the download
phase registers nothing. -/
theorem downloadAll_offline (env : Env) (tmpFolder : String)
    (hoff : ∀ url k, (env.httpGet url k).err ≠ none) (doc : Node) (e : epubmaker)
    (w : World) (hfiles : w.files = []) :
    (downloadAll env tmpFolder doc e w).1 = e := by
  unfold downloadAll
  generalize doc.filter isImg = imgs
  induction imgs generalizing w with
  | nil => rfl
  | cons img rest ih =>
    have hstep : (downloadImages env e w img tmpFolder).1 = e ∧
        (downloadImages env e w img tmpFolder).2.files = [] := by
      unfold downloadImages
      split
      · exact ⟨rfl, hfiles⟩
      · next imgSrc _ =>
        obtain ⟨g1, g2, g3⟩ := downloadImagesLoop_offline env imgSrc tmpFolder hoff 3
          ("", none) e.Epub w (Or.inr (by omega)) hfiles
        dsimp only
        split_ifs
        · exact ⟨rfl, hfiles⟩
        · exact ⟨by rw [g2], g3⟩
    rw [List.foldl_cons, ← Prod.mk.eta (p := downloadImages env e w img tmpFolder), hstep.1]
    exact ih _ hstep.2


/-! ## Image Rewriter: the rewrite phase -/

/-- On a nil `Node` the task panics. -/
theorem embedImages_nil (env : Env) (e : epubmaker) (w : World) (article : Article)
    (tmpFolder : String) (hnode : article.Node = none) :
    embedImages env e w article tmpFolder = Run.panicked := by
  unfold embedImages
  rw [hnode]

/-- On a non-nil `Node` the method `embedImages` returns: the registry and the
world are those after the download phase, the document is the one after the
rewrite phase, the title is unchanged. -/
theorem embedImages_returned (env : Env) (e : epubmaker) (w : World) (article : Article)
    (node : Node) (tmpFolder : String) (hnode : article.Node = some node) :
    ∃ r, embedImages env e w article tmpFolder = Run.returned r ∧
      r.1 = (downloadAll env tmpFolder node e w).1 ∧
      r.2.1 = (downloadAll env tmpFolder node e w).2 ∧
      r.2.2.Node = some (changeAll (downloadAll env tmpFolder node e w).1 node) ∧
      r.2.2.Title = article.Title := by
  unfold embedImages
  rw [hnode]
  simp only
  split_ifs
  · exact ⟨_, rfl, rfl, rfl, rfl, rfl⟩
  · exact ⟨_, rfl, rfl, rfl, rfl, rfl⟩

/-- The element at a position of the document after the rewrite phase. -/
theorem changeAll_getElem? (e : epubmaker) (doc : Node) (i : Nat) (img : Element)
    (h : doc[i]? = some img) (himg : isImg img = true) :
    (changeAll e doc)[i]? = some (changeRefs e img) := by
  simp [changeAll, List.getElem?_map, h, himg]

/-- The `img` element at a position of an article after `embedImages`. -/
theorem embedImages_img (env : Env) (e : epubmaker) (w : World) (article : Article)
    (node : Node) (tmpFolder : String) (hnode : article.Node = some node)
    (i : Nat) (img : Element) (s : String) (hi : node[i]? = some img)
    (himg : isImg img = true) (hs : img.Attr "src" = some s) :
    ∃ r node' img', embedImages env e w article tmpFolder = Run.returned r ∧
      r.1 = (downloadAll env tmpFolder node e w).1 ∧
      r.2.1 = (downloadAll env tmpFolder node e w).2 ∧
      r.2.2.Node = some node' ∧ node'[i]? = some img' ∧ isImg img' = true ∧
      img'.Attr "src" = some ((Load r.1.downloads s).getD s) := by
  obtain ⟨r, hr, h1, h2, h3, _⟩ := embedImages_returned env e w article node tmpFolder hnode
  refine ⟨r, _, changeRefs (downloadAll env tmpFolder node e w).1 img, hr, h1, h2, h3,
    changeAll_getElem? _ _ i img hi himg, ?_, ?_⟩
  · rw [isImg_changeRefs, himg]
  · rw [h1]
    exact Attr_src_changeRefs _ img s hs

/-- C8: for every `img` element with `src` attribute `s` and every registry,
after `changeRefs` the `src` is the registry's value for `s` if the registry
holds one and is still `s` otherwise.  For an article processed by
`embedImages` this holds of every `img` element at its position with the
registry as the download phase left it.  In particular every `img` element
keeps its original `src` when the download phase registered nothing for the
locators of the article (every download was abandoned), as it does when every
GET fails with an error, nothing is staged and the registry did not hold the
locator before. -/
theorem changeRefs_src_from_registry (env : Env) (e : epubmaker) (w : World)
    (article : Article) (tmpFolder : String) :
    (∀ (reg : epubmaker) (img : Element) (s : String), img.Attr "src" = some s →
      (∀ r, Load reg.downloads s = some r → (changeRefs reg img).Attr "src" = some r) ∧
      (Load reg.downloads s = none → (changeRefs reg img).Attr "src" = some s)) ∧
    (∀ (node : Node) (i : Nat) (img : Element) (s : String), article.Node = some node →
      node[i]? = some img → isImg img = true → img.Attr "src" = some s →
      ∃ r node' img', embedImages env e w article tmpFolder = Run.returned r ∧
        r.2.2.Node = some node' ∧ node'[i]? = some img' ∧ isImg img' = true ∧
        img'.Attr "src" = some ((Load r.1.downloads s).getD s)) ∧
    (∀ (node : Node) (r : epubmaker × World × Article), article.Node = some node →
      embedImages env e w article tmpFolder = Run.returned r →
      (∀ img ∈ node, isImg img = true → ∀ s, img.Attr "src" = some s →
        Load r.1.downloads s = none) →
      ∀ (i : Nat) (img : Element) (s : String),
        node[i]? = some img → isImg img = true → img.Attr "src" = some s →
        ∃ node' img', r.2.2.Node = some node' ∧ node'[i]? = some img' ∧
          img'.Attr "src" = some s) ∧
    ((∀ url k, (env.httpGet url k).err ≠ none) → w.files = [] →
      ∀ (node : Node) (i : Nat) (img : Element) (s : String), article.Node = some node →
        node[i]? = some img → isImg img = true → img.Attr "src" = some s →
        Load e.downloads s = none →
        ∃ r node' img', embedImages env e w article tmpFolder = Run.returned r ∧
          r.2.2.Node = some node' ∧ node'[i]? = some img' ∧
          img'.Attr "src" = some s) := by
  refine ⟨fun reg img s hs => ⟨fun r hr => ?_, fun hn => ?_⟩,
    fun node i img s hnode hi himg hs => ?_,
    fun node r hnode hr hnone i img s hi himg hs => ?_,
    fun hoff hfiles node i img s hnode hi himg hs hreg => ?_⟩
  · simpa [hr] using Attr_src_changeRefs reg img s hs
  · simpa [hn] using Attr_src_changeRefs reg img s hs
  · obtain ⟨r, node', img', h0, _, _, h3, h4, h5, h6⟩ :=
      embedImages_img env e w article node tmpFolder hnode i img s hi himg hs
    exact ⟨r, node', img', h0, h3, h4, h5, h6⟩
  · obtain ⟨r', node', img', h0, _, _, h3, h4, _, h6⟩ :=
      embedImages_img env e w article node tmpFolder hnode i img s hi himg hs
    have hrr : r' = r := Run.returned.inj (h0.symm.trans hr)
    subst hrr
    refine ⟨node', img', h3, h4, ?_⟩
    rw [h6, hnone img (List.getElem?_mem hi) himg s hs]
    rfl
  · obtain ⟨r, node', img', h0, h1, _, h3, h4, _, h6⟩ :=
      embedImages_img env e w article node tmpFolder hnode i img s hi himg hs
    refine ⟨r, node', img', h0, h3, h4, ?_⟩
    rw [h6, h1, downloadAll_offline env tmpFolder hoff node e w hfiles, hreg]
    rfl

/-- An instance for C8: the article `gallery` in a fresh run without network;
its last image, which had `src` `http://x.example/a.png` and a `loading`
attribute, keeps that `src`. -/
theorem changeRefs_src_from_registry_witness :
    (∀ url k, (offlineEnv.httpGet url k).err ≠ none) ∧ World.init.files = [] ∧
    gallery.Node = some galleryNode ∧
    galleryNode[3]? = some (lazyImgOf "http://x.example/a.png") ∧
    isImg (lazyImgOf "http://x.example/a.png") = true ∧
    (lazyImgOf "http://x.example/a.png").Attr "src" = some "http://x.example/a.png" ∧
    Load (NewEpubmaker "t").downloads "http://x.example/a.png" = none ∧
    ∃ r node' img', embedImages offlineEnv (NewEpubmaker "t") World.init gallery
        "tmp-0a1b2c" = Run.returned r ∧
      r.2.2.Node = some node' ∧ node'[3]? = some img' ∧
      img'.Attr "src" = some "http://x.example/a.png" :=
  ⟨fun _ _ => Option.some_ne_none _, rfl, rfl, rfl, by decide, by decide, rfl,
    (changeRefs_src_from_registry offlineEnv (NewEpubmaker "t") World.init gallery
      "tmp-0a1b2c").2.2.2 (fun _ _ => Option.some_ne_none _) rfl galleryNode 3
      (lazyImgOf "http://x.example/a.png") "http://x.example/a.png" rfl rfl (by decide)
      (by decide) rfl⟩

/-! ## Request Queue: what each request contributes -/

/-- The loop of `Queue` only appends to `processedRequests`: started with
`acc` it returns `acc` followed by what it returns when started empty. -/
theorem foldl_queueStep_append {σ : Type}
    (Make : σ → List String → String → String → (String × Error) × σ)
    (ExtractLinks : σ → String → List String) (out cover : String)
    (reqs : List Request) (acc : List Request) (s : σ) :
    reqs.foldl (queueStep Make ExtractLinks out cover) (acc, s) =
      (acc ++ (reqs.foldl (queueStep Make ExtractLinks out cover) ([], s)).1,
        (reqs.foldl (queueStep Make ExtractLinks out cover) ([], s)).2) := by
  induction reqs generalizing acc s with
  | nil => simp
  | cons req rest ih =>
    simp only [List.foldl_cons]
    rw [ih (queueStep Make ExtractLinks out cover (acc, s) req).1,
      ih (queueStep Make ExtractLinks out cover ([], s) req).1]
    cases hT : req.Typ <;> simp only [queueStep, hT] <;> (try split_ifs) <;> simp

/-- C10: `Queue` returns nothing for no request; a file-type request comes
first in the result, unchanged, before what the later requests give; a
single-URL request calls the generator on the one-element list of its path and
a URL-list-file request calls it once on all extracted links, and the request
gives one file-type request carrying the generated path if the generator
returned no error and nothing if it returned an error; in each case the later
requests are processed, from the state the generator left. -/
theorem Queue_contributions {σ : Type}
    (Make : σ → List String → String → String → (String × Error) × σ)
    (ExtractLinks : σ → String → List String) (s : σ) (req : Request)
    (rest : List Request) (out cover : String) :
    Queue Make ExtractLinks s [] out cover = ([], s) ∧
    Queue Make ExtractLinks s (req :: rest) out cover =
      match req.Typ with
      | FileType.TypeFile =>
        (req :: (Queue Make ExtractLinks s rest out cover).1,
          (Queue Make ExtractLinks s rest out cover).2)
      | FileType.TypeUrl =>
        let r := Make s [req.Path] out cover
        let q := Queue Make ExtractLinks r.2 rest out cover
        (if r.1.2 = none then NewRequest r.1.1 FileType.TypeFile [] :: q.1 else q.1, q.2)
      | FileType.TypeUrlFile =>
        let r := Make s (ExtractLinks s req.Path) out cover
        let q := Queue Make ExtractLinks r.2 rest out cover
        (if r.1.2 = none then NewRequest r.1.1 FileType.TypeFile [] :: q.1 else q.1, q.2) := by
  refine ⟨rfl, ?_⟩
  unfold Queue
  rw [List.foldl_cons, ← Prod.mk.eta (p := queueStep Make ExtractLinks out cover ([], s) req),
    foldl_queueStep_append]
  cases hT : req.Typ <;> simp only [queueStep, hT] <;> (try split_ifs) <;> simp_all

/-! ## Pipeline Orchestrator: order of the articles -/

/-- The message of task `k`. -/
theorem sentResults_getElem? (env : Env) (pageUrls : List String) (k : Nat) :
    (sentResults env pageUrls)[k]? = pageUrls[k]?.map (fun u => fetchURL env u k) := by
  simp only [sentResults, List.getElem?_map, List.getElem?_enum, Option.map_map]
  rfl

/-- Placing messages by index: a position named by some message holds the
article of that message, every other position is untouched. -/
theorem foldl_set_getElem? (g : Nat → Article) (rs : List ReadableResult)
    (hrs : ∀ r ∈ rs, r.Article = g r.Index) (acc : List Article) (i : Nat) :
    (rs.foldl (fun readableArticles article =>
        readableArticles.set article.Index article.Article) acc)[i]? =
      if i ∈ rs.map (fun r => r.Index) ∧ i < acc.length then some (g i) else acc[i]? := by
  induction rs generalizing acc with
  | nil => simp
  | cons r rest ih =>
    have hr : r.Article = g r.Index := hrs r (List.mem_cons_self _ _)
    rw [List.foldl_cons, ih (fun x hx => hrs x (List.mem_cons_of_mem _ hx)),
      List.length_set, List.getElem?_set]
    by_cases hi : r.Index = i
    · subst hi
      by_cases hlt : r.Index < acc.length
      · simp [hlt, hr]
      · have hnone : acc[r.Index]? = none := List.getElem?_eq_none (Nat.le_of_not_lt hlt)
        simp [hlt, hnone]
    · have hi2 : ¬ i = r.Index := fun h => hi h.symm
      simp [hi, hi2]

/-- Whatever the order of arrival, `getReadableArticles` returns the articles
of the locators in the order of the locators. -/
theorem getReadableArticles_eq_map (env : Env) (pageUrls : List String)
    (arrival : List Nat) (hperm : arrival.Perm (List.range pageUrls.length)) :
    getReadableArticles env pageUrls arrival =
      pageUrls.map (fun u => (fetchReadable env u).1) := by
  have hmem : ∀ k, k ∈ arrival ↔ k < pageUrls.length := fun k => by
    rw [hperm.mem_iff, List.mem_range]
  apply List.ext_getElem?
  intro i
  unfold getReadableArticles
  simp only
  rw [foldl_set_getElem? (fun k => (fetchReadable env (pageUrls.getD k "")).1)]
  · rw [List.length_replicate, List.getElem?_replicate, List.getElem?_map]
    by_cases hi : i < pageUrls.length
    · have hin : i ∈ (arrival.filterMap (fun k => (sentResults env pageUrls)[k]?)).map
          (fun r => r.Index) := by
        rw [List.mem_map]
        refine ⟨fetchURL env pageUrls[i] i, ?_, rfl⟩
        rw [List.mem_filterMap]
        exact ⟨i, (hmem i).2 hi, by rw [sentResults_getElem?, List.getElem?_eq_getElem hi]; rfl⟩
      simp [hin, hi, List.getElem?_eq_getElem hi]
    · simp [hi, List.getElem?_eq_none (Nat.le_of_not_lt hi)]
  · intro r hr
    rw [List.mem_filterMap] at hr
    obtain ⟨k, _, hk⟩ := hr
    rw [sentResults_getElem?] at hk
    cases hu : pageUrls[k]? with
    | none => simp [hu] at hk
    | some u =>
      simp only [hu, Option.map_some', Option.some.injEq] at hk
      subst hk
      simp [fetchURL, List.getD_eq_getElem?_getD, hu]


/-! ## Assembly: the sections of the container -/

/-- A call of `downloadImages` leaves the sections and the title of the
container alone. -/
theorem downloadImages_sections (env : Env) (e : epubmaker) (w : World) (img : Element)
    (tmpFolder : String) :
    (downloadImages env e w img tmpFolder).1.Epub.sections = e.Epub.sections ∧
    (downloadImages env e w img tmpFolder).1.Epub.title = e.Epub.title := by
  unfold downloadImages
  split
  · exact ⟨rfl, rfl⟩
  · next imgSrc _ =>
    obtain ⟨_, _, _, _, _, he⟩ :=
      downloadImagesLoop_effect env imgSrc tmpFolder 3 ("", none) e.Epub w
    split_ifs
    · exact ⟨rfl, rfl⟩
    all_goals
      rcases he with h | ⟨source, h⟩ <;> simp only [h, Epub.withImage] <;> split_ifs <;>
        exact ⟨rfl, rfl⟩

/-- The download phase leaves the sections and the title of the container
alone. -/
theorem downloadAll_sections (env : Env) (tmpFolder : String) (doc : Node) (e : epubmaker)
    (w : World) :
    (downloadAll env tmpFolder doc e w).1.Epub.sections = e.Epub.sections ∧
    (downloadAll env tmpFolder doc e w).1.Epub.title = e.Epub.title := by
  unfold downloadAll
  generalize doc.filter isImg = imgs
  induction imgs generalizing e w with
  | nil => exact ⟨rfl, rfl⟩
  | cons img rest ih =>
    rw [List.foldl_cons, ← Prod.mk.eta (p := downloadImages env e w img tmpFolder)]
    obtain ⟨h1, h2⟩ := downloadImages_sections env e w img tmpFolder
    obtain ⟨g1, g2⟩ := ih (downloadImages env e w img tmpFolder).1
      (downloadImages env e w img tmpFolder).2
    exact ⟨g1.trans h1, g2.trans h2⟩

/-- A call of `embedImages` that returns was given a non-nil `Node`; it leaves
the sections and the title of the container and the title of the article
alone. -/
theorem embedImages_inv (env : Env) (e : epubmaker) (w : World) (article : Article)
    (tmpFolder : String) (r : epubmaker × World × Article)
    (h : embedImages env e w article tmpFolder = Run.returned r) :
    article.Node ≠ none ∧ r.1.Epub.sections = e.Epub.sections ∧
    r.1.Epub.title = e.Epub.title ∧ r.2.2.Title = article.Title := by
  cases hnode : article.Node with
  | none =>
    rw [embedImages_nil env e w article tmpFolder hnode] at h
    cases h
  | some node =>
    obtain ⟨r', hr', h1, _, _, h4⟩ :=
      embedImages_returned env e w article node tmpFolder hnode
    have hrr : r' = r := Run.returned.inj (hr'.symm.trans h)
    subst hrr
    obtain ⟨g1, g2⟩ := downloadAll_sections env tmpFolder node e w
    exact ⟨Option.some_ne_none _, by rw [h1]; exact g1, by rw [h1]; exact g2, h4⟩

/-- An image stage that returns was given articles of non-nil `Node` only; it
keeps the sections and the title of the container, and the number, order and
titles of the articles. -/
theorem embedAll_inv (env : Env) (tmpFolder : String) :
    ∀ (articles : List Article) (e : epubmaker) (w : World)
      (r : epubmaker × World × List Article),
      embedAll env tmpFolder articles e w = Run.returned r →
      (∀ a ∈ articles, a.Node ≠ none) ∧ r.1.Epub.sections = e.Epub.sections ∧
      r.1.Epub.title = e.Epub.title ∧
      r.2.2.map (fun a => a.Title) = articles.map (fun a => a.Title)
  | [], e, w, r, h => by
    have hr : (e, w, []) = r := Run.returned.inj h
    subst hr
    exact ⟨fun a ha => absurd ha (List.not_mem_nil a), rfl, rfl, rfl⟩
  | article :: rest, e, w, r, h => by
    simp only [embedAll] at h
    cases h1 : embedImages env e w article tmpFolder with
    | panicked =>
      rw [h1] at h
      cases h
    | returned r1 =>
      rw [h1] at h
      simp only at h
      cases h2 : embedAll env tmpFolder rest r1.1 r1.2.1 with
      | panicked =>
        rw [h2] at h
        cases h
      | returned r2 =>
        rw [h2] at h
        have hr : (r2.1, r2.2.1, r1.2.2 :: r2.2.2) = r := Run.returned.inj h
        subst hr
        obtain ⟨a1, a2, a3, a4⟩ := embedImages_inv env e w article tmpFolder r1 h1
        obtain ⟨b1, b2, b3, b4⟩ := embedAll_inv env tmpFolder rest r1.1 r1.2.1 r2 h2
        refine ⟨fun a ha => ?_, b2.trans a2, b3.trans a3, ?_⟩
        · rcases List.mem_cons.1 ha with hh | hh
          · rw [hh]
            exact a1
          · exact b1 a hh
        · simp only [List.map_cons, a4, b4]

/-- An image stage over articles of which one has a nil `Node` does not
return. -/
theorem embedAll_panicked (env : Env) (tmpFolder : String) (articles : List Article)
    (e : epubmaker) (w : World) (hnil : ∃ a ∈ articles, a.Node = none) :
    embedAll env tmpFolder articles e w = Run.panicked := by
  cases h : embedAll env tmpFolder articles e w with
  | panicked => rfl
  | returned r =>
    obtain ⟨a, ha, hn⟩ := hnil
    exact absurd hn ((embedAll_inv env tmpFolder articles e w r h).1 a ha)

/-- The loop of `addContent` when the container accepts every section: each
article becomes one section, in the order of the slice. -/
theorem foldl_addContentStep (env : Env)
    (hacc : ∀ ep body title, env.AddSection ep body title = none) :
    ∀ (articles : List Article) (ep : Epub) (added : Nat),
      ((articles.foldl (addContentStep env) (ep, added)).1.sections =
        ep.sections ++ articles.map (fun a => (prepare a, a.Title))) ∧
      (articles.foldl (addContentStep env) (ep, added)).2 = added + articles.length
  | [], ep, added => by simp
  | article :: rest, ep, added => by
    obtain ⟨h1, h2⟩ := foldl_addContentStep env hacc rest
      (ep.withSection (prepare article) article.Title) (added + 1)
    simp only [List.foldl_cons, addContentStep, hacc, ne_eq, not_true_eq_false, if_false]
    rw [h1, h2]
    simp only [Epub.withSection, List.append_assoc, List.singleton_append, List.map_cons,
      List.length_cons, true_and]
    omega

/-- The sections after `addContent` when the container accepts every section. -/
theorem addContent_sections (env : Env)
    (hacc : ∀ ep body title, env.AddSection ep body title = none)
    (e : epubmaker) (articles : List Article) :
    (addContent env e articles).2.Epub.sections =
      e.Epub.sections ++ articles.map (fun a => (prepare a, a.Title)) := by
  unfold addContent
  simp only
  split_ifs <;> exact (foldl_addContentStep env hacc articles e.Epub 0).1

/-- The method `addContent` leaves the title of the container alone. -/
theorem addContent_title (env : Env) (e : epubmaker) (articles : List Article) :
    (addContent env e articles).2.Epub.title = e.Epub.title := by
  have key : ∀ (l : List Article) (st : Epub × Nat),
      (l.foldl (addContentStep env) st).1.title = st.1.title := by
    intro l
    induction l with
    | nil => intro st; rfl
    | cons a rest ih =>
      intro st
      rw [List.foldl_cons, ih]
      unfold addContentStep
      split_ifs <;> rfl
  unfold addContent
  simp only
  split_ifs <;> exact key articles (e.Epub, 0)


/-! ## Pipeline Orchestrator: what a run that returns has done -/

/-- A run of `Make` that returns either stopped at the guard on an empty slice,
or went through the image stage without a panic; then its container has the
sections and the title that `addContent` left, and, if no error is returned,
the returned path is the store directory joined with the slug of the
effective title and `.epub`, or with the fallback name if that slug is
empty. -/
theorem Make_returned (env : Env) (arrival : List Nat) (w : World) (pageUrls : List String)
    (title coverUrl : String) (r : MakeResult)
    (h : Make env arrival w pageUrls title coverUrl = Run.returned r) :
    (getReadableArticles env pageUrls arrival = [] ∧ r.book = none ∧ r.err ≠ none) ∨
    ∃ first others ra b,
      getReadableArticles env pageUrls arrival = first :: others ∧
      embedAll env ("tmp-" ++ env.GenHash ("-".intercalate pageUrls)) (first :: others)
        (NewEpubmaker (if title.length = 0 then first.Title else title)) w =
        Run.returned ra ∧
      r.book = some b ∧
      b.Epub.sections = (addContent env ra.1 ra.2.2).2.Epub.sections ∧
      b.Epub.title = (addContent env ra.1 ra.2.2).2.Epub.title ∧
      (r.err = none →
        r.path = env.pathJoin (getStoreDir env none).1
          (if (env.slugMake (if title.length = 0 then first.Title else title)).length = 0 then
            "kindle-send-doc-" ++ ("tmp-" ++ env.GenHash ("-".intercalate pageUrls)) ++ ".epub"
          else env.slugMake (if title.length = 0 then first.Title else title) ++ ".epub")) := by
  cases heq : getReadableArticles env pageUrls arrival with
  | nil =>
    simp only [Make, heq] at h
    have hr := Run.returned.inj h
    subst hr
    exact Or.inl ⟨rfl, rfl, Option.some_ne_none _⟩
  | cons first others =>
    cases hemb : embedAll env ("tmp-" ++ env.GenHash ("-".intercalate pageUrls))
        (first :: others) (NewEpubmaker (if title.length = 0 then first.Title else title)) w with
    | panicked =>
      simp only [Make, heq, hemb] at h
      cases h
    | returned ra =>
      simp only [Make, heq, hemb] at h
      right
      split_ifs at h <;>
        (have hr := Run.returned.inj h
         subst hr
         refine ⟨first, others, ra, _, rfl, hemb, rfl, ?_, ?_, ?_⟩ <;>
           simp_all [Epub.withImage])

/-- C1: for every list of locators and every order of arrival of the tasks'
messages (a permutation of the task numbers), `getReadableArticles` returns a
slice as long as the list whose element `i` is the article fetched for
`pageUrls[i]`; `addContent`, the container accepting each section, adds one
section per article of its slice in the order of the slice; and the container
of a run of `Make` that returns holds exactly one section per locator, titled
in the order of the input list. -/
theorem getReadableArticles_in_input_order (env : Env) (arrival : List Nat) (w : World)
    (pageUrls : List String) (title coverUrl : String)
    (hperm : arrival.Perm (List.range pageUrls.length))
    (hacc : ∀ ep body t, env.AddSection ep body t = none) :
    (getReadableArticles env pageUrls arrival).length = pageUrls.length ∧
    (∀ (i : Nat) (h : i < pageUrls.length),
      (getReadableArticles env pageUrls arrival)[i]? =
        some (fetchReadable env (pageUrls.get ⟨i, h⟩)).1) ∧
    (∀ (e : epubmaker) (articles : List Article),
      (addContent env e articles).2.Epub.sections =
        e.Epub.sections ++ articles.map (fun a => (prepare a, a.Title))) ∧
    (∀ r b, Make env arrival w pageUrls title coverUrl = Run.returned r → r.book = some b →
      b.Epub.sections.length = pageUrls.length ∧
      b.Epub.sections.map Prod.snd =
        pageUrls.map (fun u => (fetchReadable env u).1.Title)) := by
  have hmap := getReadableArticles_eq_map env pageUrls arrival hperm
  refine ⟨by rw [hmap, List.length_map], fun i h => ?_, addContent_sections env hacc, ?_⟩
  · rw [hmap, List.getElem?_map, List.getElem?_eq_getElem h]
    rfl
  · intro r b hr hb
    have htitles : b.Epub.sections.map Prod.snd =
        pageUrls.map (fun u => (fetchReadable env u).1.Title) := by
      rcases Make_returned env arrival w pageUrls title coverUrl r hr with
        ⟨_, hnone, _⟩ | ⟨first, others, ra, b', hfirst, hemb, hb', hsec, _, _⟩
      · rw [hnone] at hb
        cases hb
      · have hbb : b' = b := Option.some.inj (hb'.symm.trans hb)
        subst hbb
        obtain ⟨_, h2, _, h4⟩ := embedAll_inv env _ _ _ _ ra hemb
        rw [hsec, addContent_sections env hacc, h2]
        simp only [NewEpubmaker, NewEpub, List.nil_append, List.map_map]
        have h5 : List.map (Prod.snd ∘ fun a => (prepare a, a.Title)) ra.2.2 =
            List.map (fun a => a.Title) ra.2.2 := rfl
        rw [h5, h4, ← hfirst, hmap, List.map_map]
        rfl
    refine ⟨?_, htitles⟩
    have := congrArg List.length htitles
    simpa using this

/-- An instance for C1: three locators whose messages arrive in the order
third, first, second. -/
theorem getReadableArticles_in_input_order_witness :
    [2, 0, 1].Perm (List.range ["u1", "u2", "u3"].length) ∧
    (∀ ep body t, okEnv.AddSection ep body t = none) ∧
    (getReadableArticles okEnv ["u1", "u2", "u3"] [2, 0, 1]).length = 3 ∧
    (∀ r b, Make okEnv [2, 0, 1] World.init ["u1", "u2", "u3"] "" "" = Run.returned r →
      r.book = some b →
      b.Epub.sections.length = ["u1", "u2", "u3"].length ∧
      b.Epub.sections.map Prod.snd =
        ["u1", "u2", "u3"].map (fun u => (fetchReadable okEnv u).1.Title)) :=
  ⟨by decide, fun _ _ _ => rfl,
    (getReadableArticles_in_input_order okEnv [2, 0, 1] World.init ["u1", "u2", "u3"] "" ""
      (by decide) (fun _ _ _ => rfl)).1,
    (getReadableArticles_in_input_order okEnv [2, 0, 1] World.init ["u1", "u2", "u3"] "" ""
      (by decide) (fun _ _ _ => rfl)).2.2.2⟩

/-! ## Pipeline Orchestrator: a failed extraction -/

/-- An extraction that returns an error leaves the empty article, whose `Node`
is nil. -/
theorem fetchReadable_failed_empty (env : Env) (url : String)
    (h : (fetchReadable env url).2 ≠ none) : (fetchReadable env url).1 = Article.empty := by
  unfold fetchReadable fetchReadableCounted at h ⊢
  simp only at h ⊢
  split_ifs at h ⊢ with h1
  · rfl
  · exact absurd rfl h

/-- Whatever the order of arrival, when the extraction of one or more locators
returns an error, the placeholder of that locator stays in the slice and
`Make` does not return: neither the error of the guard on an empty slice nor
any other error nor a path. -/
theorem Make_failed_extraction_panics (env : Env) (arrival : List Nat) (w : World)
    (pageUrls : List String) (title coverUrl : String)
    (hperm : arrival.Perm (List.range pageUrls.length))
    (hfail : ∃ u ∈ pageUrls, (fetchReadable env u).2 ≠ none) :
    Make env arrival w pageUrls title coverUrl = Run.panicked := by
  cases h : Make env arrival w pageUrls title coverUrl with
  | panicked => rfl
  | returned r =>
    obtain ⟨u, hu, herr⟩ := hfail
    have hmap := getReadableArticles_eq_map env pageUrls arrival hperm
    have hmem : Article.empty ∈ getReadableArticles env pageUrls arrival := by
      rw [hmap, List.mem_map]
      exact ⟨u, hu, fetchReadable_failed_empty env u herr⟩
    rcases Make_returned env arrival w pageUrls title coverUrl r h with
      ⟨hnil, _, _⟩ | ⟨first, others, ra, _, hfirst, hemb, _⟩
    · rw [hnil] at hmem
      cases hmem
    · rw [hfirst] at hmem
      exact absurd rfl ((embedAll_inv env _ _ _ _ ra hemb).1 Article.empty hmem)


/-! ## Dedup Registry: one download per locator -/

/-- A call of `downloadImages` on an element whose `src`, if it has one, is
staged at another path than `s` changes nothing that concerns `s`: its
registry entry, the number of its GETs, whether its file is staged, the number
of images under its hash. -/
theorem downloadImages_other (env : Env) (e : epubmaker) (w : World) (img : Element)
    (tmpFolder s : String)
    (hne : ∀ t, img.Attr "src" = some t →
      env.filepathJoin tmpFolder (env.GetHash t) ≠ env.filepathJoin tmpFolder (env.GetHash s)) :
    Load (downloadImages env e w img tmpFolder).1.downloads s = Load e.downloads s ∧
    (downloadImages env e w img tmpFolder).2.gets.count s = w.gets.count s ∧
    (env.filepathJoin tmpFolder (env.GetHash s) ∈
        (downloadImages env e w img tmpFolder).2.files →
      env.filepathJoin tmpFolder (env.GetHash s) ∈ w.files) ∧
    ((downloadImages env e w img tmpFolder).1.Epub.images.map Prod.snd).count (env.GetHash s) =
      (e.Epub.images.map Prod.snd).count (env.GetHash s) := by
  unfold downloadImages
  split
  · exact ⟨rfl, rfl, id, rfl⟩
  · next t ht =>
    have hpath := hne t ht
    have hts : t ≠ s := fun h => hpath (by rw [h])
    have hhash : env.GetHash t ≠ env.GetHash s := fun h => hpath (by rw [h])
    obtain ⟨k, _, hg, _, hf, he⟩ :=
      downloadImagesLoop_effect env t tmpFolder 3 ("", none) e.Epub w
    have hcount : (downloadImagesLoop env t tmpFolder 3 ("", none) e.Epub w).2.2.gets.count s =
        w.gets.count s := by
      rw [hg, List.count_append, List.count_replicate]
      simp [hts]
    have hfile : env.filepathJoin tmpFolder (env.GetHash s) ∈
        (downloadImagesLoop env t tmpFolder 3 ("", none) e.Epub w).2.2.files →
        env.filepathJoin tmpFolder (env.GetHash s) ∈ w.files := by
      intro hp
      rcases hf _ hp with h | h
      · exact absurd h.symm hpath
      · exact h
    have himg : ((downloadImagesLoop env t tmpFolder 3 ("", none) e.Epub w).2.1.images.map
        Prod.snd).count (env.GetHash s) = (e.Epub.images.map Prod.snd).count (env.GetHash s) := by
      rcases he with h | ⟨source, h⟩
      · rw [h]
      · rw [h]
        simp [Epub.withImage, List.count_append, List.count_cons, hhash]
    dsimp only
    split_ifs
    · exact ⟨rfl, rfl, id, rfl⟩
    · exact ⟨rfl, hcount, hfile, himg⟩
    · refine ⟨?_, hcount, hfile, himg⟩
      simp only [Load_Store, hts, if_false]

/-- A call of `downloadImages` on an element whose `src` is registered does
nothing. -/
theorem downloadImages_known (env : Env) (e : epubmaker) (w : World) (img : Element)
    (tmpFolder s ref : String) (hsrc : img.Attr "src" = some s)
    (hreg : Load e.downloads s = some ref) :
    downloadImages env e w img tmpFolder = (e, w) := by
  unfold downloadImages
  simp only [hsrc, hreg, Option.isSome_some, if_true]

/-- The first call of `downloadImages` for `s` when the download succeeds at
once: one GET, the file staged, the image added, the reference registered. -/
theorem downloadImages_first (env : Env) (e : epubmaker) (w : World) (img : Element)
    (tmpFolder s : String) (hsrc : img.Attr "src" = some s)
    (hreg : Load e.downloads s = none)
    (hfile : env.filepathJoin tmpFolder (env.GetHash s) ∉ w.files)
    (hget : env.httpGet s (w.gets.count s) = { err := none, StatusCode := 200 })
    (hcreate : env.osCreate (env.filepathJoin tmpFolder (env.GetHash s)) = none)
    (hcopy : env.ioCopy s = none)
    (hadd : (env.AddImage e.Epub (env.filepathJoin tmpFolder (env.GetHash s))
      (env.GetHash s)).2 = none) :
    downloadImages env e w img tmpFolder =
      ({ Epub := e.Epub.withImage (env.filepathJoin tmpFolder (env.GetHash s)) (env.GetHash s),
         downloads := Store e.downloads s
           (env.AddImage e.Epub (env.filepathJoin tmpFolder (env.GetHash s))
             (env.GetHash s)).1 },
       { w with gets := w.gets ++ [s],
                files := env.filepathJoin tmpFolder (env.GetHash s) :: w.files }) := by
  have hd : downloadImage env w s (env.GetHash s) tmpFolder =
      ((env.filepathJoin tmpFolder (env.GetHash s), none),
        { w with gets := w.gets ++ [s],
                 files := env.filepathJoin tmpFolder (env.GetHash s) :: w.files }) := by
    simp [downloadImage, downloadImageLoop, maxAttempts, hfile, hget, hcreate, hcopy]
  unfold downloadImages
  simp only [hsrc, hreg, Option.isSome_none, Bool.false_eq_true, if_false, downloadImagesLoop,
    hd, hadd, ne_eq, not_true_eq_false, if_true]

/-- Once `s` is registered, further calls of `downloadImages` keep its entry
and make no GET of it and add no image under its hash. -/
theorem foldl_downloadImages_after (env : Env) (tmpFolder s ref : String) :
    ∀ (imgs : List Element) (e : epubmaker) (w : World),
      (∀ img ∈ imgs, ∀ t, img.Attr "src" = some t → t ≠ s →
        env.filepathJoin tmpFolder (env.GetHash t) ≠
          env.filepathJoin tmpFolder (env.GetHash s)) →
      Load e.downloads s = some ref →
      Load (imgs.foldl (fun st img => downloadImages env st.1 st.2 img tmpFolder)
        (e, w)).1.downloads s = some ref ∧
      (imgs.foldl (fun st img => downloadImages env st.1 st.2 img tmpFolder)
        (e, w)).2.gets.count s = w.gets.count s ∧
      ((imgs.foldl (fun st img => downloadImages env st.1 st.2 img tmpFolder)
        (e, w)).1.Epub.images.map Prod.snd).count (env.GetHash s) =
        (e.Epub.images.map Prod.snd).count (env.GetHash s)
  | [], e, w, _, hreg => ⟨hreg, rfl, rfl⟩
  | img :: rest, e, w, hdist, hreg => by
    have hrest : ∀ img2 ∈ rest, ∀ t, img2.Attr "src" = some t → t ≠ s →
        env.filepathJoin tmpFolder (env.GetHash t) ≠
          env.filepathJoin tmpFolder (env.GetHash s) :=
      fun img2 h2 => hdist img2 (List.mem_cons_of_mem _ h2)
    rw [List.foldl_cons]
    by_cases hsrc : img.Attr "src" = some s
    · rw [downloadImages_known env e w img tmpFolder s ref hsrc hreg]
      exact foldl_downloadImages_after env tmpFolder s ref rest e w hrest hreg
    · obtain ⟨h1, h2, _, h4⟩ := downloadImages_other env e w img tmpFolder s
        (fun t ht => hdist img (List.mem_cons_self _ _) t ht (fun hts => hsrc (hts ▸ ht)))
      obtain ⟨g1, g2, g3⟩ := foldl_downloadImages_after env tmpFolder s ref rest
        (downloadImages env e w img tmpFolder).1 (downloadImages env e w img tmpFolder).2
        hrest (h1.trans hreg)
      exact ⟨g1, g2.trans h2, g3.trans h4⟩


/-- The download phase over elements of which one or more have the unregistered
`src` `s`, whose first download succeeds at once: `s` ends registered with the
reference the container returned, after exactly one GET of `s` and exactly one
image added under its hash. -/
theorem foldl_downloadImages_before (env : Env) (tmpFolder s : String)
    (hcreate : env.osCreate (env.filepathJoin tmpFolder (env.GetHash s)) = none)
    (hcopy : env.ioCopy s = none)
    (hadd : ∀ ep, env.GetHash s ∉ ep.images.map Prod.snd →
      (env.AddImage ep (env.filepathJoin tmpFolder (env.GetHash s)) (env.GetHash s)).2 = none) :
    ∀ (imgs : List Element) (e : epubmaker) (w : World),
      (∀ img ∈ imgs, ∀ t, img.Attr "src" = some t → t ≠ s →
        env.filepathJoin tmpFolder (env.GetHash t) ≠
          env.filepathJoin tmpFolder (env.GetHash s)) →
      Load e.downloads s = none →
      env.filepathJoin tmpFolder (env.GetHash s) ∉ w.files →
      env.httpGet s (w.gets.count s) = { err := none, StatusCode := 200 } →
      env.GetHash s ∉ e.Epub.images.map Prod.snd →
      (∃ img ∈ imgs, img.Attr "src" = some s) →
      (∃ ep, Load (imgs.foldl (fun st img => downloadImages env st.1 st.2 img tmpFolder)
        (e, w)).1.downloads s =
          some (env.AddImage ep (env.filepathJoin tmpFolder (env.GetHash s))
            (env.GetHash s)).1) ∧
      (imgs.foldl (fun st img => downloadImages env st.1 st.2 img tmpFolder)
        (e, w)).2.gets.count s = w.gets.count s + 1 ∧
      ((imgs.foldl (fun st img => downloadImages env st.1 st.2 img tmpFolder)
        (e, w)).1.Epub.images.map Prod.snd).count (env.GetHash s) = 1
  | [], _, _, _, _, _, _, _, hex => by simp at hex
  | img :: rest, e, w, hdist, hreg, hfile, hget, hunused, hex => by
    have hrest : ∀ img2 ∈ rest, ∀ t, img2.Attr "src" = some t → t ≠ s →
        env.filepathJoin tmpFolder (env.GetHash t) ≠
          env.filepathJoin tmpFolder (env.GetHash s) :=
      fun img2 h2 => hdist img2 (List.mem_cons_of_mem _ h2)
    rw [List.foldl_cons]
    by_cases hsrc : img.Attr "src" = some s
    · rw [downloadImages_first env e w img tmpFolder s hsrc hreg hfile hget hcreate hcopy
        (hadd e.Epub hunused)]
      obtain ⟨g1, g2, g3⟩ := foldl_downloadImages_after env tmpFolder s
        (env.AddImage e.Epub (env.filepathJoin tmpFolder (env.GetHash s)) (env.GetHash s)).1 rest
        { Epub := e.Epub.withImage (env.filepathJoin tmpFolder (env.GetHash s)) (env.GetHash s),
          downloads := Store e.downloads s
            (env.AddImage e.Epub (env.filepathJoin tmpFolder (env.GetHash s))
              (env.GetHash s)).1 }
        { w with gets := w.gets ++ [s],
                 files := env.filepathJoin tmpFolder (env.GetHash s) :: w.files }
        hrest (by simp [Load_Store])
      refine ⟨⟨e.Epub, g1⟩, ?_, ?_⟩
      · rw [g2]
        simp [List.count_append]
      · rw [g3]
        simp [Epub.withImage, List.count_append, List.count_eq_zero.2 hunused]
    · obtain ⟨h1, h2, h3, h4⟩ := downloadImages_other env e w img tmpFolder s
        (fun t ht => hdist img (List.mem_cons_self _ _) t ht (fun hts => hsrc (hts ▸ ht)))
      have hex2 : ∃ img2 ∈ rest, img2.Attr "src" = some s := by
        obtain ⟨x, hx, hxs⟩ := hex
        rcases List.mem_cons.1 hx with h | h
        · exact absurd (h ▸ hxs) hsrc
        · exact ⟨x, h, hxs⟩
      have hunused2 : env.GetHash s ∉
          (downloadImages env e w img tmpFolder).1.Epub.images.map Prod.snd := by
        rw [← List.count_eq_zero, h4]
        exact List.count_eq_zero.2 hunused
      obtain ⟨g1, g2, g3⟩ := foldl_downloadImages_before env tmpFolder s hcreate hcopy hadd
        rest (downloadImages env e w img tmpFolder).1 (downloadImages env e w img tmpFolder).2
        hrest (h1.trans hreg) (fun hp => hfile (h3 hp)) (by rw [h2]; exact hget) hunused2 hex2
      exact ⟨g1, by rw [g2, h2], g3⟩

/-- C4: an article has one or more `img` elements with the same `src` `s`, and
no other locator of the article is staged at the path of `s`; the registry
holds no entry for `s`, no file is staged for it and the container holds no
image under its hash; and the first download succeeds: the first GET of `s`
has status 200, the file is created and written, and the container accepts
the image, as it does whenever it holds no image of that name.  Then
`embedImages` returns after exactly one GET of `s`, with exactly one image
under the hash of `s` in the container, and after the rewrite phase every
`img` element that had `src` `s` has as `src` one and the same reference, the
one the container returned and the registry holds. -/
theorem embedImages_repeated_image_once (env : Env) (e : epubmaker) (w : World)
    (article : Article) (node : Node) (tmpFolder s : String)
    (hnode : article.Node = some node)
    (hocc : ∃ img ∈ node, isImg img = true ∧ img.Attr "src" = some s)
    (hdist : ∀ img ∈ node, isImg img = true → ∀ t, img.Attr "src" = some t → t ≠ s →
      env.filepathJoin tmpFolder (env.GetHash t) ≠ env.filepathJoin tmpFolder (env.GetHash s))
    (hreg : Load e.downloads s = none)
    (hfile : env.filepathJoin tmpFolder (env.GetHash s) ∉ w.files)
    (hunused : env.GetHash s ∉ e.Epub.images.map Prod.snd)
    (hget : env.httpGet s (w.gets.count s) = { err := none, StatusCode := 200 })
    (hcreate : env.osCreate (env.filepathJoin tmpFolder (env.GetHash s)) = none)
    (hcopy : env.ioCopy s = none)
    (hadd : ∀ ep, env.GetHash s ∉ ep.images.map Prod.snd →
      (env.AddImage ep (env.filepathJoin tmpFolder (env.GetHash s)) (env.GetHash s)).2 = none) :
    ∃ r ep, embedImages env e w article tmpFolder = Run.returned r ∧
      r.2.1.gets.count s = w.gets.count s + 1 ∧
      (r.1.Epub.images.map Prod.snd).count (env.GetHash s) = 1 ∧
      Load r.1.downloads s =
        some (env.AddImage ep (env.filepathJoin tmpFolder (env.GetHash s)) (env.GetHash s)).1 ∧
      ∀ (i : Nat) (img : Element), node[i]? = some img → isImg img = true →
        img.Attr "src" = some s →
        ∃ node' img', r.2.2.Node = some node' ∧ node'[i]? = some img' ∧
          img'.Attr "src" =
            some (env.AddImage ep (env.filepathJoin tmpFolder (env.GetHash s))
              (env.GetHash s)).1 := by
  obtain ⟨r, hr, h1, h2, h3, _⟩ := embedImages_returned env e w article node tmpFolder hnode
  have hex : ∃ img ∈ node.filter isImg, img.Attr "src" = some s := by
    obtain ⟨img, hmem, himg, hsrc⟩ := hocc
    exact ⟨img, List.mem_filter.2 ⟨hmem, himg⟩, hsrc⟩
  have hdist2 : ∀ img ∈ node.filter isImg, ∀ t, img.Attr "src" = some t → t ≠ s →
      env.filepathJoin tmpFolder (env.GetHash t) ≠
        env.filepathJoin tmpFolder (env.GetHash s) := fun img hm =>
    hdist img (List.mem_filter.1 hm).1 (List.mem_filter.1 hm).2
  obtain ⟨⟨ep, g1⟩, g2, g3⟩ := foldl_downloadImages_before env tmpFolder s hcreate hcopy
    hadd (node.filter isImg) e w hdist2 hreg hfile hget hunused hex
  have hload : Load r.1.downloads s =
      some (env.AddImage ep (env.filepathJoin tmpFolder (env.GetHash s)) (env.GetHash s)).1 := by
    rw [h1]
    exact g1
  refine ⟨r, ep, hr, by rw [h2]; exact g2, by rw [h1]; exact g3, hload, ?_⟩
  intro i img hi himg hsrc
  refine ⟨_, changeRefs (downloadAll env tmpFolder node e w).1 img, h3,
    changeAll_getElem? _ _ i img hi himg, ?_⟩
  rw [Attr_src_changeRefs _ img s hsrc, ← h1, hload]
  rfl


/-- In `galleryNode` the second image is staged at another path than the first
and the last. -/
theorem galleryNode_distinct :
    ∀ img ∈ galleryNode, isImg img = true → ∀ t, img.Attr "src" = some t →
      t ≠ "http://x.example/a.png" →
      strictEnv.filepathJoin "tmp-0a1b2c" (strictEnv.GetHash t) ≠
        strictEnv.filepathJoin "tmp-0a1b2c" (strictEnv.GetHash "http://x.example/a.png") := by
  intro img hm _ t ht hts
  simp only [galleryNode, List.mem_cons, List.mem_singleton, List.not_mem_nil, or_false] at hm
  rcases hm with h | h | h | h <;> subst h
  · have : "http://x.example/a.png" = t := by simpa [imgOf, Element.Attr] using ht
    exact absurd this.symm hts
  · simp [bare, Element.Attr] at ht
  · have : "http://x.example/b.png" = t := by simpa [imgOf, Element.Attr] using ht
    subst this
    decide
  · have : "http://x.example/a.png" = t := by simpa [lazyImgOf, Element.Attr] using ht
    exact absurd this.symm hts

/-- The container of `strictEnv` accepts a staged image under a name it does
not hold. -/
theorem strictEnv_accepts (ep : Epub)
    (h : strictEnv.GetHash "http://x.example/a.png" ∉ ep.images.map Prod.snd) :
    (strictEnv.AddImage ep
      (strictEnv.filepathJoin "tmp-0a1b2c" (strictEnv.GetHash "http://x.example/a.png"))
      (strictEnv.GetHash "http://x.example/a.png")).2 = none := by
  have hlen : ¬ (strictEnv.filepathJoin "tmp-0a1b2c"
      (strictEnv.GetHash "http://x.example/a.png")).length = 0 := by decide
  show (if (strictEnv.filepathJoin "tmp-0a1b2c"
      (strictEnv.GetHash "http://x.example/a.png")).length = 0 then
        (("", some "error retrieving file") : String × Error)
      else if strictEnv.GetHash "http://x.example/a.png" ∈ ep.images.map Prod.snd then
        ("", some "filename already used")
      else ("../images/" ++ strictEnv.GetHash "http://x.example/a.png", none)).2 = none
  rw [if_neg hlen, if_neg h]

/-- An instance for C4: the article `gallery`, whose first and last image are
the same, in a fresh run with a container that refuses a name already in
use. -/
theorem embedImages_repeated_image_once_witness :
    gallery.Node = some galleryNode ∧
    (∃ img ∈ galleryNode, isImg img = true ∧ img.Attr "src" = some "http://x.example/a.png") ∧
    Load (NewEpubmaker "t").downloads "http://x.example/a.png" = none ∧
    strictEnv.filepathJoin "tmp-0a1b2c" (strictEnv.GetHash "http://x.example/a.png") ∉
      World.init.files ∧
    strictEnv.GetHash "http://x.example/a.png" ∉
      (NewEpubmaker "t").Epub.images.map Prod.snd ∧
    strictEnv.httpGet "http://x.example/a.png"
        (World.init.gets.count "http://x.example/a.png") =
      { err := none, StatusCode := 200 } ∧
    ∃ r ep, embedImages strictEnv (NewEpubmaker "t") World.init gallery "tmp-0a1b2c" =
        Run.returned r ∧
      r.2.1.gets.count "http://x.example/a.png" =
        World.init.gets.count "http://x.example/a.png" + 1 ∧
      (r.1.Epub.images.map Prod.snd).count (strictEnv.GetHash "http://x.example/a.png") = 1 ∧
      Load r.1.downloads "http://x.example/a.png" =
        some (strictEnv.AddImage ep
          (strictEnv.filepathJoin "tmp-0a1b2c" (strictEnv.GetHash "http://x.example/a.png"))
          (strictEnv.GetHash "http://x.example/a.png")).1 ∧
      ∀ (i : Nat) (img : Element), galleryNode[i]? = some img → isImg img = true →
        img.Attr "src" = some "http://x.example/a.png" →
        ∃ node' img', r.2.2.Node = some node' ∧ node'[i]? = some img' ∧
          img'.Attr "src" =
            some (strictEnv.AddImage ep
              (strictEnv.filepathJoin "tmp-0a1b2c"
                (strictEnv.GetHash "http://x.example/a.png"))
              (strictEnv.GetHash "http://x.example/a.png")).1 :=
  ⟨rfl, ⟨imgOf "http://x.example/a.png", by decide, by decide, by decide⟩, by decide,
    by decide, by decide, rfl,
    embedImages_repeated_image_once strictEnv (NewEpubmaker "t") World.init gallery
      galleryNode "tmp-0a1b2c" "http://x.example/a.png" rfl
      ⟨imgOf "http://x.example/a.png", by decide, by decide, by decide⟩ galleryNode_distinct
      (by decide) (by decide) (by decide) rfl rfl rfl strictEnv_accepts⟩

/-- The run of the C4 instance, evaluated: one GET per locator, two staged
files, two images, and the first and the last image rewritten to the same
reference. -/
theorem embedImages_gallery_evaluated :
    embedImages strictEnv (NewEpubmaker "t") World.init gallery "tmp-0a1b2c" =
      Run.returned
        ({ Epub :=
            { title := "t", sections := [],
              images := [("tmp-0a1b2c/httpxexampleapng", "httpxexampleapng"),
                ("tmp-0a1b2c/httpxexamplebpng", "httpxexamplebpng")],
              cover := none },
           downloads := [("http://x.example/b.png", "../images/httpxexamplebpng"),
              ("http://x.example/a.png", "../images/httpxexampleapng")] },
         { gets := ["http://x.example/a.png", "http://x.example/b.png"],
           files := ["tmp-0a1b2c/httpxexamplebpng", "tmp-0a1b2c/httpxexampleapng"],
           written := [] },
         { Title := "Gallery", Content := "<img><p><img><img>",
           Node := some [imgOf "../images/httpxexampleapng", bare "p",
             imgOf "../images/httpxexamplebpng", imgOf "../images/httpxexampleapng"] }) := by
  decide


/-! ## Finalizing: the title and the name of the output file -/

/-- C9: for every run of `Make` that returns a path (it returns, with a nil
error): the extraction of every locator returned no error, so the first
successfully extracted article in input order is that of the first locator;
if the title argument is empty the effective title, which the container is
created with, is the title of that article, and otherwise it is the title
argument; the returned path is the store directory joined with the file name
slug(effective title) + `.epub` when that slug is not empty, and with the
fallback `kindle-send-doc-` + staging directory name + `.epub` when it is
empty. -/
theorem Make_title_and_file_name (env : Env) (arrival : List Nat) (w : World)
    (pageUrls : List String) (title coverUrl : String) (r : MakeResult)
    (hperm : arrival.Perm (List.range pageUrls.length))
    (hret : Make env arrival w pageUrls title coverUrl = Run.returned r)
    (herr : r.err = none) :
    ∃ u b,
      (∀ v ∈ pageUrls, (fetchReadable env v).2 = none) ∧
      pageUrls.find? (fun v => decide ((fetchReadable env v).2 = none)) = some u ∧
      r.book = some b ∧
      b.Epub.title = (if title.length = 0 then (fetchReadable env u).1.Title else title) ∧
      r.path = env.pathJoin (getStoreDir env none).1
        (if (env.slugMake
            (if title.length = 0 then (fetchReadable env u).1.Title else title)).length = 0 then
          "kindle-send-doc-" ++ ("tmp-" ++ env.GenHash ("-".intercalate pageUrls)) ++ ".epub"
        else env.slugMake
          (if title.length = 0 then (fetchReadable env u).1.Title else title) ++ ".epub") := by
  have hmap := getReadableArticles_eq_map env pageUrls arrival hperm
  rcases Make_returned env arrival w pageUrls title coverUrl r hret with
    ⟨_, _, hne⟩ | ⟨first, others, ra, b, hfirst, hemb, hb, _, htitle, hpath⟩
  · exact absurd herr hne
  · obtain ⟨hnodes, _, h3, _⟩ := embedAll_inv env _ _ _ _ ra hemb
    have hall : ∀ v ∈ pageUrls, (fetchReadable env v).2 = none := by
      intro v hv
      by_contra hv2
      have hmem : Article.empty ∈ first :: others := by
        rw [← hfirst, hmap, List.mem_map]
        exact ⟨v, hv, fetchReadable_failed_empty env v hv2⟩
      exact hnodes Article.empty hmem rfl
    cases pageUrls with
    | nil =>
      rw [hmap] at hfirst
      cases hfirst
    | cons u us =>
      rw [hmap, List.map_cons] at hfirst
      have hu : (fetchReadable env u).1 = first := (List.cons.inj hfirst).1
      refine ⟨u, b, hall, ?_, hb, ?_, ?_⟩
      · rw [List.find?_cons_of_pos]
        simpa using hall u (List.mem_cons_self _ _)
      · rw [htitle, addContent_title, h3, hu]
        rfl
      · rw [hu]
        exact hpath herr

/-- An instance for C9: two locators whose pages are titled `Alien`, no title
given; the run returns the path of `alien.epub`. -/
theorem Make_title_and_file_name_witness :
    [1, 0].Perm (List.range
      ["http://paulgraham.com/alien.html", "http://paulgraham.com/hwh.html"].length) ∧
    Make alienEnv [1, 0] World.init
        ["http://paulgraham.com/alien.html", "http://paulgraham.com/hwh.html"] "" "" =
      Run.returned
        { path := "/home/alien.epub", err := none,
          book := some
            { Epub :=
                { title := "Alien",
                  sections := [("<h1>Alien</h1><p>", "Alien"), ("<h1>Alien</h1><p>", "Alien")],
                  images := [], cover := none },
              downloads := [] },
          world := { gets := [], files := [], written := ["/home/alien.epub"] } } ∧
    ∃ u b,
      (∀ v ∈ ["http://paulgraham.com/alien.html", "http://paulgraham.com/hwh.html"],
        (fetchReadable alienEnv v).2 = none) ∧
      ["http://paulgraham.com/alien.html", "http://paulgraham.com/hwh.html"].find?
        (fun v => decide ((fetchReadable alienEnv v).2 = none)) = some u ∧
      some
        ({ Epub :=
            { title := "Alien",
              sections := [("<h1>Alien</h1><p>", "Alien"), ("<h1>Alien</h1><p>", "Alien")],
              images := [], cover := none },
           downloads := [] } : epubmaker) = some b ∧
      b.Epub.title = (if "".length = 0 then (fetchReadable alienEnv u).1.Title else "") ∧
      "/home/alien.epub" = alienEnv.pathJoin (getStoreDir alienEnv none).1
        (if (alienEnv.slugMake
            (if "".length = 0 then (fetchReadable alienEnv u).1.Title else "")).length = 0 then
          "kindle-send-doc-" ++ ("tmp-" ++ alienEnv.GenHash ("-".intercalate
            ["http://paulgraham.com/alien.html", "http://paulgraham.com/hwh.html"])) ++ ".epub"
        else alienEnv.slugMake
          (if "".length = 0 then (fetchReadable alienEnv u).1.Title else "") ++ ".epub") :=
  ⟨by decide, by decide,
    Make_title_and_file_name alienEnv [1, 0] World.init
      ["http://paulgraham.com/alien.html", "http://paulgraham.com/hwh.html"] "" ""
      { path := "/home/alien.epub", err := none,
        book := some
          { Epub :=
              { title := "Alien",
                sections := [("<h1>Alien</h1><p>", "Alien"), ("<h1>Alien</h1><p>", "Alien")],
                images := [], cover := none },
            downloads := [] },
        world := { gets := [], files := [], written := ["/home/alien.epub"] } }
      (by decide) (by decide) rfl⟩

/-! ## Evaluations -/

/-- C6, evaluated where it fails: every GET of the image is answered with
status 404 and no transport error, and nothing is staged.  After three GETs
`downloadImage` returns the empty path with a nil error; `downloadImages` then
hands the empty path to the container and, the container accepting it,
registers a reference for the locator. -/
theorem downloadImage_not_found_nil_error :
    downloadImage notFoundEnv World.init "http://x.example/a.png" "a.png" "tmp-0a1b2c" =
      (("", none),
        { gets := ["http://x.example/a.png", "http://x.example/a.png",
            "http://x.example/a.png"], files := [], written := [] }) ∧
    (downloadImages notFoundEnv (NewEpubmaker "t") World.init
        (imgOf "http://x.example/a.png") "tmp-0a1b2c").1 =
      { Epub :=
          { title := "t", sections := [], images := [("", "http://x.example/a.png")],
            cover := none },
        downloads := [("http://x.example/a.png", "../images/http://x.example/a.png")] } := by
  decide

/-- The 404 run with a container that refuses an image without source: each of
the three calls of `downloadImage` returns the empty path with a nil error,
the container refuses it each time, and after nine GETs nothing is
registered. -/
theorem downloadImages_not_found_refused :
    downloadImages strictNotFoundEnv (NewEpubmaker "t") World.init
        (imgOf "http://x.example/a.png") "tmp-0a1b2c" =
      (NewEpubmaker "t",
        { gets := List.replicate 9 "http://x.example/a.png", files := [], written := [] }) := by
  decide

/-- C7 as stated fails: with every GET failing, one call of `downloadImages`
for a locator absent from the registry performs nine GETs of it, not at most
three. -/
theorem downloadImages_offline_nine_gets :
    Load (NewEpubmaker "t").downloads "http://x.example/a.png" = none ∧
    (downloadImages offlineEnv (NewEpubmaker "t") World.init
        (imgOf "http://x.example/a.png") "tmp-0a1b2c").2.gets.count
      "http://x.example/a.png" = 9 ∧
    ¬ ((downloadImages offlineEnv (NewEpubmaker "t") World.init
        (imgOf "http://x.example/a.png") "tmp-0a1b2c").2.gets.count
      "http://x.example/a.png" ≤ 3) := by
  decide

/-- C2, evaluated where it fails: of six locators the extraction of the second
and the fifth fails.  The slice keeps an empty article with a nil `Node` at
the second and the fifth position, and `Make` does not return: the image task
of such a placeholder panics, before `addContent` has added any section. -/
theorem Make_failed_locators_panic :
    getReadableArticles (failingEnv ["u2", "u5"]) ["u1", "u2", "u3", "u4", "u5", "u6"]
        [4, 2, 0, 5, 1, 3] =
      [page "u1", Article.empty, page "u3", page "u4", Article.empty, page "u6"] ∧
    Make (failingEnv ["u2", "u5"]) [4, 2, 0, 5, 1, 3] World.init
        ["u1", "u2", "u3", "u4", "u5", "u6"] "" "" = Run.panicked := by
  decide

/-- C3, evaluated where it fails: extraction fails for both locators of the
list.  `getReadableArticles` still returns two articles, so the guard on an
empty slice does not fire; `Make` goes on to the image stage, where the task
of the first placeholder panics, and returns no error. -/
theorem Make_all_failed_no_error_returned :
    (∀ u ∈ ["u1", "u2"], (fetchReadable (failingEnv ["u1", "u2"]) u).2 ≠ none) ∧
    getReadableArticles (failingEnv ["u1", "u2"]) ["u1", "u2"] [1, 0] =
      [Article.empty, Article.empty] ∧
    Make (failingEnv ["u1", "u2"]) [1, 0] World.init ["u1", "u2"] "" "" = Run.panicked ∧
    ∀ r, Make (failingEnv ["u1", "u2"]) [1, 0] World.init ["u1", "u2"] "" "" ≠
      Run.returned r := by
  refine ⟨by decide, by decide, by decide, fun r h => ?_⟩
  have hp : Make (failingEnv ["u1", "u2"]) [1, 0] World.init ["u1", "u2"] "" "" =
      Run.panicked := by decide
  rw [hp] at h
  cases h

end KindleSend
